import Mathlib

/-!
Verification development for the AI-Job-Search-Agent repository.

The repository drives a ReAct-style LLM agent over four tools and then
normalizes the agent's final free-text output into a strict JSON shape
(`src/main.py`), with job-search and resume-analysis tool adapters
(`src/tools.py`).

We shallowly embed the relevant code:
* JSON values (as produced by Python's `json.loads` on the inputs at hand)
  are the mutually inductive `JVal` / `JArr` / `JObj`.  JSON numbers are
  modelled as integers; floating-point literals are outside the model.
* `json.dumps` / `json.loads` are modelled by `dumpVal` / `jsonLoads`
  (a fuel-based recursive-descent reading of the JSON grammar restricted
  to integer numerals, with Python's strict-mode string escapes).
* The output-normalization block of `main` (src/main.py lines 196-241) is
  `processResult`; the fenced-code-block regex search is `searchFenced`.
* `format_job_results`, `base_job_search` and `_analyze_resume`
  (src/tools.py) are embedded with external effects (the Apify actor call,
  the LLM call) abstracted as explicit parameters, and Python exceptions
  as `Option`/`Except`.
-/

/- JSON values, as produced by Python's `json.loads` (numbers restricted to
integers; floats are not modelled).  Arrays and objects are their own
mutually inductive types so that structural recursion and induction stay
simple. -/
mutual

inductive JVal : Type where
  | null : JVal
  | bool : Bool → JVal
  | num : Int → JVal
  | str : String → JVal
  | arr : JArr → JVal
  | obj : JObj → JVal

inductive JArr : Type where
  | nil : JArr
  | cons : JVal → JArr → JArr

inductive JObj : Type where
  | nil : JObj
  | cons : String → JVal → JObj → JObj

end

namespace JArr

/-- Length of a JSON array (Python `len`). -/
def length : JArr → Nat
  | .nil => 0
  | .cons _ t => t.length + 1

/-- Python slice `a[:n]` on a JSON array. -/
def take : Nat → JArr → JArr
  | 0, _ => .nil
  | _, .nil => .nil
  | n + 1, .cons v t => .cons v (take n t)

/-- Build a JSON array from a Lean list. -/
def ofList : List JVal → JArr
  | [] => .nil
  | v :: t => .cons v (ofList t)

theorem length_take : (n : Nat) → (a : JArr) → (take n a).length = min n a.length
  | 0, a => by cases a <;> simp [take, length]
  | n + 1, .nil => by simp [take, length]
  | n + 1, .cons v t => by
    simp [take, length, length_take n t, Nat.succ_min_succ]

theorem take_of_length_le : (n : Nat) → (a : JArr) → a.length ≤ n → take n a = a
  | 0, .nil, _ => rfl
  | n + 1, .nil, _ => rfl
  | 0, .cons v t, h => by simp [length] at h
  | n + 1, .cons v t, h => by
    simp [length] at h
    simp [take, take_of_length_le n t h]

theorem length_ofList : (l : List JVal) → (ofList l).length = l.length
  | [] => rfl
  | v :: t => by simp [ofList, length, length_ofList t]

end JArr

namespace JObj

/-- Python `dict.get` on an object built by `json.loads`: with duplicate
keys the later binding wins (as in `dict(pairs)`), so lookup recurses into
the tail first. -/
def get : JObj → String → Option JVal
  | .nil, _ => none
  | .cons k v t, key =>
    match get t key with
    | some w => some w
    | none => if k == key then some v else none

/-- Python truthiness of the underlying dict: empty dict is falsy. -/
def isEmpty : JObj → Bool
  | .nil => true
  | .cons _ _ _ => false

/-- Append two objects; with last-binding-wins lookup this models the
Python merge `\x7b**a, **b\x7d`. -/
def append : JObj → JObj → JObj
  | .nil, b => b
  | .cons k v t, b => .cons k v (append t b)

end JObj

/-- Python truthiness (`if json_data:`) of a `json.loads` result. -/
def truthy : JVal → Bool
  | .null => false
  | .bool b => b
  | .num n => n != 0
  | .str s => !s.data.isEmpty
  | .arr .nil => false
  | .arr (.cons _ _) => true
  | .obj .nil => false
  | .obj (.cons _ _ _) => true

/-- The whitespace characters skipped by Python's `json.loads`
(`' '`, `'\t'`, `'\n'`, `'\r'`). -/
def isJsonWs (c : Char) : Bool :=
  [' ', '\t', '\n', '\r'].contains c

/-- The ASCII whitespace class of Python's regex `\s` and of `str.strip`
(`' '`, `'\t'`, `'\n'`, `'\r'`, `'\x0b'`, `'\x0c'`); non-ASCII Unicode
whitespace is not modelled. -/
def isPyWs (c : Char) : Bool :=
  [' ', '\t', '\n', '\r', '\x0b', '\x0c'].contains c

/-- Python `str.strip()` (restricted to ASCII whitespace). -/
def pyStrip (s : String) : String :=
  ⟨((s.data.dropWhile isPyWs).reverse.dropWhile isPyWs).reverse⟩

/-- Decimal digit character. -/
def digitChar (d : Nat) : Char :=
  match d with
  | 0 => '0' | 1 => '1' | 2 => '2' | 3 => '3' | 4 => '4'
  | 5 => '5' | 6 => '6' | 7 => '7' | 8 => '8' | _ => '9'

/-- Lower-case hexadecimal digit character. -/
def hexDigitChar (d : Nat) : Char :=
  match d with
  | 0 => '0' | 1 => '1' | 2 => '2' | 3 => '3' | 4 => '4'
  | 5 => '5' | 6 => '6' | 7 => '7' | 8 => '8' | 9 => '9'
  | 10 => 'a' | 11 => 'b' | 12 => 'c' | 13 => 'd' | 14 => 'e' | _ => 'f'

/-- Decimal digits of a natural number, most significant first. -/
def natToDigits (n : Nat) : List Char :=
  if _h : n < 10 then [digitChar n]
  else natToDigits (n / 10) ++ [digitChar (n % 10)]
decreasing_by exact Nat.div_lt_self (by omega) (by omega)

/-- JSON escape of one character, as emitted by `json.dumps` (modulo
`ensure_ascii`: printable non-ASCII characters are emitted raw, which
`json.loads` accepts identically). -/
def escChar (c : Char) : List Char :=
  if c == '"' then ['\\', '"']
  else if c == '\\' then ['\\', '\\']
  else if c == '\x08' then ['\\', 'b']
  else if c == '\x0c' then ['\\', 'f']
  else if c == '\n' then ['\\', 'n']
  else if c == '\r' then ['\\', 'r']
  else if c == '\t' then ['\\', 't']
  else if c.toNat < 32 then
    '\\' :: 'u' :: '0' :: '0' :: hexDigitChar (c.toNat / 16) :: [hexDigitChar (c.toNat % 16)]
  else [c]

/-- JSON escape of a character sequence. -/
def escList : List Char → List Char
  | [] => []
  | c :: t => escChar c ++ escList t

/-- `json.dumps` of a string (including the surrounding quotes). -/
def dumpStr (s : String) : List Char :=
  '"' :: (escList s.data ++ ['"'])

/-- `json.dumps` of an integer. -/
def dumpInt (n : Int) : List Char :=
  if n < 0 then '-' :: natToDigits n.natAbs else natToDigits n.toNat

mutual

/-- `json.dumps` of a JSON value (default separators `", "` / `": "`). -/
def dumpVal : JVal → List Char
  | .null => 'n' :: ['u', 'l', 'l']
  | .bool true => 't' :: ['r', 'u', 'e']
  | .bool false => 'f' :: ['a', 'l', 's', 'e']
  | .num n => dumpInt n
  | .str s => dumpStr s
  | .arr .nil => ['[', ']']
  | .arr (.cons v t) => '[' :: (dumpVal v ++ (dumpArrTail t ++ [']']))
  | .obj .nil => ['{', '}']
  | .obj (.cons k v t) =>
    '{' :: (dumpStr k ++ (':' :: ' ' :: (dumpVal v ++ (dumpObjTail t ++ ['}']))))

/-- Remaining elements of a dumped array, each preceded by `", "`. -/
def dumpArrTail : JArr → List Char
  | .nil => []
  | .cons v t => ',' :: ' ' :: (dumpVal v ++ dumpArrTail t)

/-- Remaining members of a dumped object, each preceded by `", "`. -/
def dumpObjTail : JObj → List Char
  | .nil => []
  | .cons k v t => ',' :: ' ' :: (dumpStr k ++ (':' :: ' ' :: (dumpVal v ++ dumpObjTail t)))

end

/-- `json.dumps` as a string-to-string function. -/
def dumps (v : JVal) : String := ⟨dumpVal v⟩

/-- Skip JSON whitespace. -/
def skipWs (cs : List Char) : List Char := cs.dropWhile isJsonWs

/-- Value of a hexadecimal digit character. -/
def hexVal (c : Char) : Option Nat :=
  if '0' ≤ c ∧ c ≤ '9' then some (c.toNat - 48)
  else if 'a' ≤ c ∧ c ≤ 'f' then some (c.toNat - 87)
  else if 'A' ≤ c ∧ c ≤ 'F' then some (c.toNat - 55)
  else none

/-- Decode four hexadecimal digits of a `\u` escape. -/
def decodeHex4 : List Char → Option (Nat × List Char)
  | h1 :: h2 :: h3 :: h4 :: rest =>
    match hexVal h1, hexVal h2, hexVal h3, hexVal h4 with
    | some a, some b, some c, some d => some ((((a * 16 + b) * 16 + c) * 16 + d), rest)
    | _, _, _, _ => none
  | _ => none

/-- Decode one backslash escape of the JSON grammar (the character after
the backslash plus the remaining input).  Surrogate `\u` escapes are
rejected (Lean strings cannot hold lone surrogates; `json.dumps` output
never contains them). -/
def escDecode (e : Char) (rest2 : List Char) : Option (Char × List Char) :=
  if e == '"' then some ('"', rest2)
  else if e == '\\' then some ('\\', rest2)
  else if e == '/' then some ('/', rest2)
  else if e == 'b' then some ('\x08', rest2)
  else if e == 'f' then some ('\x0c', rest2)
  else if e == 'n' then some ('\n', rest2)
  else if e == 'r' then some ('\r', rest2)
  else if e == 't' then some ('\t', rest2)
  else if e == 'u' then
    match decodeHex4 rest2 with
    | some (n, rest3) =>
      if n < 0xd800 then some (Char.ofNat n, rest3)
      else if 0xe000 ≤ n then some (Char.ofNat n, rest3)
      else none
    | none => none
  else none

/-- String-body scanner of the JSON grammar in strict mode: stops at an
unescaped `"`, decodes the standard escapes, rejects raw control
characters. -/
def parseStrAux : Nat → List Char → List Char → Option (List Char × List Char)
  | 0, _, _ => none
  | _, _, [] => none
  | f + 1, acc, c :: rest =>
    if c == '"' then some (acc.reverse, rest)
    else if c == '\\' then
      match rest with
      | [] => none
      | e :: rest2 =>
        match escDecode e rest2 with
        | some (ch, rest3) => parseStrAux f (ch :: acc) rest3
        | none => none
    else if c.toNat < 32 then none
    else parseStrAux f (c :: acc) rest

/-- Parse a maximal run of decimal digits (rejecting a leading zero, as
`json.loads` does). -/
def parseNatNum (cs : List Char) : Option (Nat × List Char) :=
  let digs := cs.takeWhile Char.isDigit
  if digs.isEmpty then none
  else if decide (1 < digs.length) && (digs.head? == some '0') then none
  else some (digs.foldl (fun a c => a * 10 + (c.toNat - 48)) 0, cs.dropWhile Char.isDigit)

/-- Parse an integer literal (floats are outside the model). -/
def parseNumFrom (cs : List Char) : Option (JVal × List Char) :=
  match cs with
  | '-' :: cs1 => (parseNatNum cs1).map (fun p => (.num (-(p.1 : Int)), p.2))
  | _ => (parseNatNum cs).map (fun p => (.num (p.1 : Int), p.2))

mutual

/-- Fuel-based recursive-descent JSON value grammar (`json.loads`
restricted to integer numerals): skip whitespace, then dispatch on the
first character.  One unit of fuel is spent per recursive step; since
every step consumes at least one input character, fuel `length + 1`
always suffices. -/
def parseVal : Nat → List Char → Option (JVal × List Char)
  | 0, _ => none
  | f + 1, cs =>
    match skipWs cs with
    | [] => none
    | c :: rest =>
      if c == '{' then
        match skipWs rest with
        | '}' :: rest2 => some (.obj .nil, rest2)
        | cs2 => (parseMembers f cs2).map (fun p => (.obj p.1, p.2))
      else if c == '[' then
        match skipWs rest with
        | ']' :: rest2 => some (.arr .nil, rest2)
        | cs2 => (parseElems f cs2).map (fun p => (.arr p.1, p.2))
      else if c == '"' then
        match parseStrAux (rest.length + 1) [] rest with
        | some (content, rest2) => some (.str ⟨content⟩, rest2)
        | none => none
      else if c == 't' then
        match rest with
        | 'r' :: 'u' :: 'e' :: rest2 => some (.bool true, rest2)
        | _ => none
      else if c == 'f' then
        match rest with
        | 'a' :: 'l' :: 's' :: 'e' :: rest2 => some (.bool false, rest2)
        | _ => none
      else if c == 'n' then
        match rest with
        | 'u' :: 'l' :: 'l' :: rest2 => some (.null, rest2)
        | _ => none
      else parseNumFrom (c :: rest)

/-- Members of an object after `{` (the empty object is handled by
`parseVal`). -/
def parseMembers : Nat → List Char → Option (JObj × List Char)
  | 0, _ => none
  | f + 1, cs =>
    match skipWs cs with
    | '"' :: cs1 =>
      match parseStrAux (cs1.length + 1) [] cs1 with
      | some (key, cs2) =>
        match skipWs cs2 with
        | ':' :: cs3 =>
          match parseVal f cs3 with
          | some (v, cs4) =>
            match skipWs cs4 with
            | ',' :: cs5 => (parseMembers f cs5).map (fun p => (.cons ⟨key⟩ v p.1, p.2))
            | '}' :: cs5 => some (.cons ⟨key⟩ v .nil, cs5)
            | _ => none
          | none => none
        | _ => none
      | none => none
    | _ => none

/-- Elements of an array after `[` (the empty array is handled by
`parseVal`). -/
def parseElems : Nat → List Char → Option (JArr × List Char)
  | 0, _ => none
  | f + 1, cs =>
    match parseVal f cs with
    | some (v, cs2) =>
      match skipWs cs2 with
      | ',' :: cs3 => (parseElems f cs3).map (fun p => (.cons v p.1, p.2))
      | ']' :: cs3 => some (.cons v .nil, cs3)
      | _ => none
    | none => none

end

/-- The dispatch body of `parseVal` after whitespace skipping, as a
standalone function (definitionally equal to one step of `parseVal`; see
`parseVal_succ`). -/
def parseValBody (f : Nat) (cs : List Char) : Option (JVal × List Char) :=
  match cs with
  | [] => none
  | c :: rest =>
    if c == '{' then
      match skipWs rest with
      | '}' :: rest2 => some (.obj .nil, rest2)
      | cs2 => (parseMembers f cs2).map (fun p => (.obj p.1, p.2))
    else if c == '[' then
      match skipWs rest with
      | ']' :: rest2 => some (.arr .nil, rest2)
      | cs2 => (parseElems f cs2).map (fun p => (.arr p.1, p.2))
    else if c == '"' then
      match parseStrAux (rest.length + 1) [] rest with
      | some (content, rest2) => some (.str ⟨content⟩, rest2)
      | none => none
    else if c == 't' then
      match rest with
      | 'r' :: 'u' :: 'e' :: rest2 => some (.bool true, rest2)
      | _ => none
    else if c == 'f' then
      match rest with
      | 'a' :: 'l' :: 's' :: 'e' :: rest2 => some (.bool false, rest2)
      | _ => none
    else if c == 'n' then
      match rest with
      | 'u' :: 'l' :: 'l' :: rest2 => some (.null, rest2)
      | _ => none
    else parseNumFrom (c :: rest)

theorem parseVal_succ (f : Nat) (cs : List Char) :
    parseVal (f + 1) cs = parseValBody f (skipWs cs) := rfl

/-- The body of `parseMembers` after whitespace skipping, as a standalone
function (see `parseMembers_succ`). -/
def parseMembersBody (f : Nat) (cs : List Char) : Option (JObj × List Char) :=
  match cs with
  | '"' :: cs1 =>
    match parseStrAux (cs1.length + 1) [] cs1 with
    | some (key, cs2) =>
      match skipWs cs2 with
      | ':' :: cs3 =>
        match parseVal f cs3 with
        | some (v, cs4) =>
          match skipWs cs4 with
          | ',' :: cs5 => (parseMembers f cs5).map (fun p => (.cons ⟨key⟩ v p.1, p.2))
          | '}' :: cs5 => some (.cons ⟨key⟩ v .nil, cs5)
          | _ => none
        | none => none
      | _ => none
    | none => none
  | _ => none

theorem parseMembers_succ (f : Nat) (cs : List Char) :
    parseMembers (f + 1) cs = parseMembersBody f (skipWs cs) := rfl

/-- The body of `parseElems` applied to the result of the leading value
parse, as a standalone function (see `parseElems_succ`). -/
def parseElemsBody (f : Nat) (r : Option (JVal × List Char)) : Option (JArr × List Char) :=
  match r with
  | some (v, cs2) =>
    match skipWs cs2 with
    | ',' :: cs3 => (parseElems f cs3).map (fun p => (.cons v p.1, p.2))
    | ']' :: cs3 => some (.cons v .nil, cs3)
    | _ => none
  | none => none

theorem parseElems_succ (f : Nat) (cs : List Char) :
    parseElems (f + 1) cs = parseElemsBody f (parseVal f cs) := rfl

/-- `json.loads`: parse a complete JSON document (trailing whitespace
allowed, anything else is the `Extra data` error, i.e. `none`). -/
def jsonLoads (s : String) : Option JVal :=
  match parseVal (s.data.length + 1) s.data with
  | some (v, rest) => if (skipWs rest).isEmpty then some v else none
  | none => none

example : jsonLoads "{}" = some (.obj .nil) := rfl

example : jsonLoads "null" = some .null := rfl

example : jsonLoads "no json here" = none := rfl

example :
    jsonLoads " \x7b\"a\": [1, -20, \"x\"]\x7d " =
      some (.obj (.cons "a"
        (.arr (.cons (.num 1) (.cons (.num (-20)) (.cons (.str "x") .nil)))) .nil)) := rfl

example : jsonLoads "\x7b\"a\": 01\x7d" = none := rfl

/-- Match the literal opening fence ` ``` ` (three backticks). -/
def matchTicks : List Char → Option (List Char)
  | '`' :: '`' :: '`' :: r => some r
  | _ => none

/-- Consume an optional literal `json` language tag, i.e. the regex
fragment `(?:json)?`. -/
def stripJsonTag : List Char → List Char
  | 'j' :: 's' :: 'o' :: 'n' :: r => r
  | cs => cs

/-- Does `\s*` followed by the closing fence ` ``` ` start here? -/
def fenceClose (cs : List Char) : Bool :=
  match cs.dropWhile isPyWs with
  | '`' :: '`' :: '`' :: _ => true
  | _ => false

/-- The non-greedy `.*?\x7d` scan (with `re.DOTALL`, so `.` also matches
newlines): consume characters up to and including the first `\x7d` that is
followed by `\s*` and the closing fence; return the consumed characters. -/
def scanBody : List Char → Option (List Char)
  | [] => none
  | c :: rest =>
    if c == '}' && fenceClose rest then some [c]
    else (scanBody rest).map (c :: ·)

/-- Attempt the regex
```(?:json)?\s*(\x7b\s*".*?\x7d)\s*``` (with `re.DOTALL`) anchored at the
head of the input; return capture group 1. -/
def matchFenceAt (cs : List Char) : Option (List Char) :=
  match matchTicks cs with
  | none => none
  | some cs1 =>
    match (stripJsonTag cs1).dropWhile isPyWs with
    | '{' :: cs4 =>
      match cs4.dropWhile isPyWs with
      | '"' :: cs5 =>
        match scanBody cs5 with
        | some body => some ('{' :: (cs4.takeWhile isPyWs ++ ('"' :: body)))
        | none => none
      | _ => none
    | _ => none

/-- `re.search` with the pattern above: the leftmost start position wins. -/
def searchFenced : List Char → Option (List Char)
  | [] => none
  | c :: rest =>
    match matchFenceAt (c :: rest) with
    | some g => some g
    | none => searchFenced rest

/-- The JSON-extraction chain of `main` (src/main.py lines 204-215): try
`json.loads` on the whole text, then on the stripped regex capture of a
fenced code block; `none` models `json_data` remaining `None`. -/
def jsonExtract (s : String) : Option JVal :=
  match jsonLoads s with
  | some j => some j
  | none =>
    match searchFenced s.data with
    | some g => jsonLoads (pyStrip ⟨g⟩)
    | none => none

/- Simplified model of Python `repr` for a `json.loads`-shaped value
(single-quoted strings with minimal escaping). -/
mutual

def pyRepr : JVal → List Char
  | .null => ['N', 'o', 'n', 'e']
  | .bool true => ['T', 'r', 'u', 'e']
  | .bool false => ['F', 'a', 'l', 's', 'e']
  | .num n => dumpInt n
  | .str s => '\'' :: (s.data ++ ['\''])
  | .arr .nil => ['[', ']']
  | .arr (.cons v t) => '[' :: (pyRepr v ++ (pyReprArrTail t ++ [']']))
  | .obj .nil => ['{', '}']
  | .obj (.cons k v t) =>
    '{' :: '\'' :: (k.data ++ ('\'' :: ':' :: ' ' :: (pyRepr v ++ (pyReprObjTail t ++ ['}']))))

def pyReprArrTail : JArr → List Char
  | .nil => []
  | .cons v t => ',' :: ' ' :: (pyRepr v ++ pyReprArrTail t)

def pyReprObjTail : JObj → List Char
  | .nil => []
  | .cons k v t =>
    ',' :: ' ' :: '\'' :: (k.data ++ ('\'' :: ':' :: ' ' :: (pyRepr v ++ pyReprObjTail t)))

end

/-- Python `str()` of a value: a bare string prints without quotes,
containers print via `repr`. -/
def pyStr : JVal → String
  | .str s => s
  | v => ⟨pyRepr v⟩

/-- The error payloads pushed by `main`:
`\x7b"error": msg, "raw_output": raw\x7d`. -/
def errPayload (msg : String) (raw : JVal) : JVal :=
  .obj (.cons "error" (.str msg) (.cons "raw_output" raw .nil))

/-- The `cleaned_data` construction of `main` (src/main.py lines 219-223),
including the Python dynamic-type failure modes: `.get` requires the
parsed value to be a dict (else `AttributeError`), and the `[:5]` slice
requires the `jobs` value to be a list or string (else `TypeError`).
Exceptions are modelled as `Except.error` with the Python message. -/
def buildCleaned (j : JVal) : Except String JVal :=
  match j with
  | .obj ms =>
    let summary := (ms.get "summary").getD (.str "No summary provided")
    let recs := (ms.get "recommendations").getD (.arr .nil)
    match (ms.get "jobs").getD (.arr .nil) with
    | .arr a =>
      .ok (.obj (.cons "summary" summary
        (.cons "jobs" (.arr (JArr.take 5 a))
        (.cons "recommendations" recs .nil))))
    | .str s =>
      .ok (.obj (.cons "summary" summary
        (.cons "jobs" (.str ⟨s.data.take 5⟩)
        (.cons "recommendations" recs .nil))))
    | .null => .error "'NoneType' object is not subscriptable"
    | .bool _ => .error "'bool' object is not subscriptable"
    | .num _ => .error "'int' object is not subscriptable"
    | .obj _ => .error "unhashable type: 'slice'"
  | .null => .error "'NoneType' object has no attribute 'get'"
  | .bool _ => .error "'bool' object has no attribute 'get'"
  | .num _ => .error "'int' object has no attribute 'get'"
  | .str _ => .error "'str' object has no attribute 'get'"
  | .arr _ => .error "'list' object has no attribute 'get'"

/-- `isinstance(result, dict) and 'output' in result`, returning
`result['output']` when it holds. -/
def hasOutput : JVal → Option JVal
  | .obj ms => ms.get "output"
  | _ => none

/-- The `json_data` computation of `main` (src/main.py lines 202-215):
JSON extraction is attempted only when the output is a string, so
`json_data` stays `None` for any non-string output. -/
def extractFromOutput : JVal → Option JVal
  | .str s => jsonExtract s
  | _ => none

/-- The body of the result-processing `try` block of `main`
(src/main.py lines 198-234).  `Except.error` carries an uncaught Python
exception's message to the outer handler. -/
def processCore (result : JVal) : Except String JVal :=
  match hasOutput result with
  | some output =>
    match extractFromOutput output with
    | some j =>
      if truthy j then buildCleaned j
      else .ok (errPayload "Could not parse JSON output" output)
    | none => .ok (errPayload "Could not parse JSON output" output)
  | none => .ok (errPayload "Unexpected output format" (.str (pyStr result)))

/-- The Output Normalizer (src/main.py lines 196-241): the record pushed
to the sink for a given agent result, with the outer `except` converting
any uncaught exception into the `Failed to process results` payload. -/
def processResult (result : JVal) : JVal :=
  match processCore result with
  | .ok rec => rec
  | .error m => errPayload ("Failed to process results: " ++ m) (.str (pyStr result))

/-- An agent result whose `output` entry is the given terminal text. -/
def mkAgentResult (s : String) : JVal :=
  .obj (.cons "output" (.str s) .nil)

example :
    processResult (mkAgentResult "no json here") =
      errPayload "Could not parse JSON output" (.str "no json here") := rfl

example :
    processResult (mkAgentResult "{}") =
      errPayload "Could not parse JSON output" (.str "{}") := rfl

example :
    processResult (mkAgentResult "```json\n\x7b\"summary\":\"ok\",\"jobs\":[],\"recommendations\":[\"apply\"]\x7d\n```") =
      .obj (.cons "summary" (.str "ok")
        (.cons "jobs" (.arr .nil)
        (.cons "recommendations" (.arr (.cons (.str "apply") .nil)) .nil))) := rfl

example :
    processResult (mkAgentResult "```{}```") =
      errPayload "Could not parse JSON output" (.str "```{}```") := rfl

example :
    processResult (.str "whatever") =
      errPayload "Unexpected output format" (.str "whatever") := rfl

example :
    processResult (mkAgentResult "[1]") =
      errPayload "Failed to process results: 'list' object has no attribute 'get'"
        (.str (pyStr (mkAgentResult "[1]"))) := rfl

/-- The standardized job record built by `format_job_results`
(src/tools.py, `JobSearchResult`).  Fields that Python passes through
`.strip()` or slicing are necessarily strings; the remaining fields are
copied from the upstream item unchecked (a `TypedDict` constructor does
not validate), so they stay `JVal`. -/
structure JobRecord where
  title : String
  company : String
  location : String
  posting_date : JVal
  employment_type : JVal
  salary : JVal
  description : String
  url : JVal
  is_remote : JVal

/-- Python `value.strip()`: succeeds only on strings
(`AttributeError` otherwise, modelled as `none`). -/
def asStripped : JVal → Option String
  | .str s => some (pyStrip s)
  | _ => none

/-- Python `.get(...)` on a value that must be a dict
(`AttributeError` otherwise, modelled as `none`). -/
def asObj : JVal → Option JObj
  | .obj m => some m
  | _ => none

/-- The `description` expression of `format_job_results`
(src/tools.py line 85):
`job.get('summary', '')[:300] + '...' if job.get('summary') else ''`.
A truthy non-string `summary` raises (`TypeError` on the slice or on the
concatenation), modelled as `none`. -/
def descriptionOf (job : JObj) : Option String :=
  match job.get "summary" with
  | some sv =>
    if truthy sv then
      match sv with
      | .str s => some ⟨s.data.take 300 ++ ['.', '.', '.']⟩
      | _ => none
    else some ""
  | none => some ""

/-- The per-item body of the `for` loop of `format_job_results`
(src/tools.py lines 77-92); `none` models the caught exception that makes
the loop `continue` without appending. -/
def formatJob (job : JObj) : Option JobRecord := do
  let title ← asStripped ((job.get "title").getD (.str ""))
  let company ← asStripped ((job.get "companyName").getD (.str ""))
  let locObj ← asObj ((job.get "jobLocation").getD (.obj .nil))
  let location ← asStripped ((locObj.get "displayName").getD (.str ""))
  let description ← descriptionOf job
  some
    { title := title
      company := company
      location := location
      posting_date := (job.get "postedDate").getD (.str "")
      employment_type := (job.get "employmentType").getD (.str "")
      salary := (job.get "salary").getD (.str "Not specified")
      description := description
      url := (job.get "detailsPageUrl").getD (.str "")
      is_remote := (job.get "isRemote").getD (.bool false) }

/-- `format_job_results` (src/tools.py lines 73-94): format each raw item,
skipping items whose formatting raises, then truncate to the first 5. -/
def format_job_results (items : List JObj) : List JobRecord :=
  (items.filterMap formatJob).take 5

/-- The `run_input` dict built by `base_job_search`
(src/tools.py lines 56-60). -/
def searchRunInput (query location : String) : JObj :=
  .cons "query" (.str (pyStrip ((query.splitOn ",").getD 0 "")))
    (.cons "location"
      (.str (if query.data.contains ',' then pyStrip ((query.splitOn ",").getD 1 "") else location))
      (.cons "limit" (.num 10) .nil))

/-- The external world of `base_job_search`: the actor call
(`Actor.apify_client.actor(actor_id).call`, whose `none` result models a
falsy `run`) and the dataset retrieval, both of which may raise. -/
structure SearchEnv where
  call : String → JObj → Except String (Option Unit)
  listItems : Except String (List JObj)

/-- `base_job_search` (src/tools.py lines 49-70): any exception from the
external call or the item retrieval is caught and turned into `[]`; a
falsy `run` also yields `[]`. -/
def base_job_search (env : SearchEnv) (query : String) (actor_id : String)
    (location : String := "Remote") : List JobRecord :=
  match env.call actor_id (searchRunInput query location) with
  | .error _ => []
  | .ok none => []
  | .ok (some _) =>
    match env.listItems with
    | .error _ => []
    | .ok items => format_job_results items

/-- `_linkedin_search` (src/tools.py line 97). -/
def linkedin_search (env : SearchEnv) (query : String) : List JobRecord :=
  base_job_search env query "krandiash/linkedin-jobs-scraper"

/-- `_indeed_search` (src/tools.py line 111). -/
def indeed_search (env : SearchEnv) (query : String) : List JobRecord :=
  base_job_search env query "krandiash/indeed-scraper"

/-- `_dice_search` (src/tools.py line 125). -/
def dice_search (env : SearchEnv) (query : String) : List JobRecord :=
  base_job_search env query "mohamedgb00714/dicecom-job-scraper"

/-- The record returned by `_analyze_resume` for blank input
(src/tools.py lines 142-146). -/
def emptyResumeRecord : JObj :=
  .cons "error" (.str "Empty resume text provided")
    (.cons "skills" (.arr .nil)
      (.cons "experience" (.arr .nil)
        (.cons "education" (.arr .nil)
          (.cons "summary" (.str "No resume to analyze")
            (.cons "years_experience" (.num 0) .nil)))))

/-- The record returned by `_analyze_resume` when the model call raises
(src/tools.py lines 170-177). -/
def failedResumeRecord (msg : String) (resume_text : String) : JObj :=
  .cons "error" (.str msg)
    (.cons "skills" (.arr .nil)
      (.cons "experience" (.arr .nil)
        (.cons "education" (.arr .nil)
          (.cons "summary" (.str "Analysis failed")
            (.cons "years_experience" (.num 0)
              (.cons "raw_text" (.str resume_text) .nil))))))

/-- `_analyze_resume` (src/tools.py lines 139-177), with the LLM chain
abstracted as `llm` (`Except.error` models an exception during the call).
The second component records whether the external model chain was
invoked. -/
def analyze_resume (llm : String → Except String JObj) (resume_text : String) :
    JObj × Bool :=
  if (pyStrip resume_text).data.isEmpty then
    (emptyResumeRecord, false)
  else
    match llm resume_text with
    | .ok analysis => (analysis.append (.cons "raw_text" (.str resume_text) .nil), true)
    | .error e => (failedResumeRecord e resume_text, true)

/- ---------------------------------------------------------------------- -/
/- The ReAct agent loop.  The loop itself lives in LangChain's
`AgentExecutor`; the repository only configures it
(src/main.py lines 64-70: `max_iterations=5`, `handle_parsing_errors=True`).
The loop below is therefore modelled from the spec (section 4.1). -/

/-- Modelled from the spec: a ToolSpec of section 3 — name, description,
callable entry point.  Missing from src/ (the concrete tool set lives in
LangChain `Tool` objects). -/
structure ToolSpec where
  name : String
  description : String
  run : String → Except String String

/-- Modelled from the spec: the parsed model response of section 4.1 step
2 — either `(thought, action, action_input)`, or `(thought, final_answer)`,
or a malformed response that could not be parsed. -/
inductive ModelResp : Type where
  | action : String → String → String → ModelResp
  | finalAnswer : String → String → ModelResp
  | malformed : String → ModelResp

/-- Modelled from the spec: an AgentTurn of section 3 — thought, chosen
tool name, tool input, observation. -/
structure Turn where
  thought : String
  action : String
  actionInput : String
  observation : String

/-- The iteration budget configured in `setup_react_agent`
(src/main.py line 69). -/
def maxIterations : Nat := 5

/-- Modelled from the spec: the "no final answer" marker of section 4.1
step 4. -/
def iterationLimitMarker : String := "no final answer — iteration limit reached"

/-- Look up a tool by name in the fixed tool set. -/
def lookupTool (tools : List ToolSpec) (n : String) : Option ToolSpec :=
  tools.find? (fun t => t.name == n)

/-- Modelled from the spec: execute one action step — dispatch by name,
invoke the tool, convert a tool failure (or an unknown tool name) into
observation text rather than propagating (section 4.1 error handling). -/
def execTurn (tools : List ToolSpec) (thought action input : String) : Turn :=
  { thought := thought
    action := action
    actionInput := input
    observation :=
      match lookupTool tools action with
      | some t =>
        match t.run input with
        | .ok obs => obs
        | .error e => e
      | none => action ++ " is not a valid tool" }

/-- Modelled from the spec: the turn recorded when the model's own
response cannot be parsed — the parse error is fed back as an observation
(section 4.1 error handling), consuming one unit of the budget. -/
def parseErrorTurn (raw : String) : Turn :=
  { thought := "", action := "", actionInput := "",
    observation := "Could not parse LLM output: " ++ raw }

/-- Modelled from the spec: the ReAct loop of section 4.1 — query the
model on the transcript; a final answer stops the loop, an action or a
malformed response appends a turn and consumes one unit of the iteration
budget; an exhausted budget returns the marker.  Returns the transcript
together with the returned text. -/
def runLoopAux (model : List Turn → ModelResp) (tools : List ToolSpec) :
    Nat → List Turn → List Turn × String
  | 0, tr => (tr, iterationLimitMarker)
  | f + 1, tr =>
    match model tr with
    | .finalAnswer _ text => (tr, text)
    | .action th a inp => runLoopAux model tools f (tr ++ [execTurn tools th a inp])
    | .malformed raw => runLoopAux model tools f (tr ++ [parseErrorTurn raw])

/-- The configured agent loop: `runLoopAux` with the iteration budget of
`setup_react_agent`. -/
def runAgent (model : List Turn → ModelResp) (tools : List ToolSpec) :
    List Turn × String :=
  runLoopAux model tools maxIterations []

/-- Is the value a Python `str`? (`isinstance(output, str)`). -/
def JVal.isStr : JVal → Bool
  | .str _ => true
  | _ => false

/-- C10: when the agent result is a mapping whose `output` value is not a
string, the normalizer attempts no JSON parsing at all (`json_data` stays
`None`) and pushes the `Could not parse JSON output` payload carrying that
non-string value as `raw_output`. -/
theorem nonstring_output_no_parse (ms : JObj) (v : JVal)
    (hget : ms.get "output" = some v)
    (hns : v.isStr = false) :
    extractFromOutput v = none ∧
    processResult (.obj ms) = errPayload "Could not parse JSON output" v := by
  have hext : extractFromOutput v = none := by
    cases v <;> first | rfl | simp [JVal.isStr] at hns
  refine ⟨hext, ?_⟩
  simp only [processResult, processCore, hasOutput, hget, hext]

theorem nonstring_output_no_parse_witness :
    extractFromOutput (.obj (.cons "summary" (.str "ok") .nil)) = none ∧
    processResult
        (.obj (.cons "output" (.obj (.cons "summary" (.str "ok") .nil)) .nil)) =
      errPayload "Could not parse JSON output"
        (.obj (.cons "summary" (.str "ok") .nil)) :=
  nonstring_output_no_parse _ _ rfl rfl

/-- C7: for blank (empty or whitespace-only) resume text, `_analyze_resume`
returns the structured empty-input record — empty `skills`, `experience`
and `education`, zero `years_experience` — and the external model chain is
never invoked (second component `false`). -/
theorem analyze_resume_blank (llm : String → Except String JObj) (s : String)
    (h : s.data.all isPyWs = true) :
    analyze_resume llm s = (emptyResumeRecord, false) ∧
    (analyze_resume llm s).1.get "skills" = some (.arr .nil) ∧
    (analyze_resume llm s).1.get "experience" = some (.arr .nil) ∧
    (analyze_resume llm s).1.get "education" = some (.arr .nil) ∧
    (analyze_resume llm s).1.get "years_experience" = some (.num 0) ∧
    (analyze_resume llm s).2 = false := by
  have hd : s.data.dropWhile isPyWs = [] :=
    List.dropWhile_eq_nil_iff.mpr (by simpa [List.all_eq_true] using h)
  have he : analyze_resume llm s = (emptyResumeRecord, false) := by
    simp [analyze_resume, pyStrip, hd]
  rw [he]
  exact ⟨rfl, rfl, rfl, rfl, rfl, rfl⟩

theorem analyze_resume_blank_witness :
    (" \t\n".data.all isPyWs = true) ∧
    analyze_resume (fun _ => .error "unreached") " \t\n" = (emptyResumeRecord, false) :=
  ⟨rfl, (analyze_resume_blank (fun _ => .error "unreached") " \t\n" rfl).1⟩

theorem base_job_search_empty_of_failure (env : SearchEnv)
    (query actor_id location : String)
    (h : (∃ e, env.call actor_id (searchRunInput query location) = .error e) ∨
      env.call actor_id (searchRunInput query location) = .ok none ∨
      ∃ e, env.listItems = .error e) :
    base_job_search env query actor_id location = [] := by
  cases hc : env.call actor_id (searchRunInput query location) with
  | error e => simp [base_job_search, hc]
  | ok o =>
    cases o with
    | none => simp [base_job_search, hc]
    | some u =>
      rcases h with ⟨e, he⟩ | he | ⟨e, he⟩
      · rw [hc] at he; cases he
      · rw [hc] at he; cases he
      · simp [base_job_search, hc, he]

/-- C6: the three job-search adapters swallow any failure of the external
call or of the result retrieval and return the empty list instead of
propagating an exception. -/
theorem job_search_adapters_swallow (env : SearchEnv) (query : String)
    (h : ∀ actor_id : String,
      (∃ e, env.call actor_id (searchRunInput query "Remote") = .error e) ∨
      env.call actor_id (searchRunInput query "Remote") = .ok none ∨
      ∃ e, env.listItems = .error e) :
    linkedin_search env query = [] ∧ indeed_search env query = [] ∧
      dice_search env query = [] :=
  ⟨base_job_search_empty_of_failure _ _ _ _ (h _),
    base_job_search_empty_of_failure _ _ _ _ (h _),
    base_job_search_empty_of_failure _ _ _ _ (h _)⟩

theorem job_search_adapters_swallow_witness :
    linkedin_search
        { call := fun _ _ => .error "ConnectionError", listItems := .ok [] }
        "python developer, Berlin" = [] ∧
    indeed_search
        { call := fun _ _ => .error "ConnectionError", listItems := .ok [] }
        "python developer, Berlin" = [] ∧
    dice_search
        { call := fun _ _ => .error "ConnectionError", listItems := .ok [] }
        "python developer, Berlin" = [] :=
  job_search_adapters_swallow _ _ (fun _ => Or.inl ⟨"ConnectionError", rfl⟩)

/-- C9: whenever `format_job_results`' per-item formatting succeeds, the
`description` field is either the empty string (upstream `summary` missing
or falsy) or the first 300 characters of `summary` with `"..."` appended —
the suffix is appended even when `summary` is shorter than 300 characters —
and its length never exceeds 303. -/
theorem formatJob_description (job : JObj) (rec : JobRecord)
    (h : formatJob job = some rec) :
    ((job.get "summary" = none ∨ ∃ sv, job.get "summary" = some sv ∧ truthy sv = false) →
      rec.description = "") ∧
    (∀ s : String, job.get "summary" = some (.str s) → truthy (.str s) = true →
      rec.description = ⟨s.data.take 300 ++ ['.', '.', '.']⟩) ∧
    rec.description.length ≤ 303 := by
  simp only [formatJob, Option.bind_eq_bind, Option.bind_eq_some] at h
  obtain ⟨title, h1, h⟩ := h
  obtain ⟨company, h2, h⟩ := h
  obtain ⟨locObj, h3, h⟩ := h
  obtain ⟨location, h4, h⟩ := h
  obtain ⟨description, h5, h⟩ := h
  have hrec : rec.description = description := by cases h; rfl
  refine ⟨?_, ?_, ?_⟩
  · rintro (hnone | ⟨sv, hget, htr⟩)
    · simp only [descriptionOf, hnone] at h5
      cases h5; exact hrec
    · simp only [descriptionOf, hget] at h5
      rw [htr] at h5
      simp only [Bool.false_eq_true, if_false] at h5
      cases h5; exact hrec
  · intro s hget htr
    simp only [descriptionOf, hget] at h5
    rw [htr] at h5
    simp only [if_true] at h5
    cases h5; exact hrec
  · rw [hrec]
    rcases hs : job.get "summary" with _ | sv
    · simp only [descriptionOf, hs] at h5
      cases h5; simp [String.length]
    · simp only [descriptionOf, hs] at h5
      rcases htr : truthy sv with _ | _
      · rw [htr] at h5
        simp only [Bool.false_eq_true, if_false] at h5
        cases h5; simp [String.length]
      · rw [htr] at h5
        simp only [if_true] at h5
        cases sv with
        | str s0 =>
          cases h5
          simp only [String.length, List.length_append, List.length_take,
            List.length_cons, List.length_nil]
          omega
        | null => cases h5
        | bool b => cases h5
        | num n => cases h5
        | arr a => cases h5
        | obj o => cases h5

theorem formatJob_description_witness :
    formatJob (.cons "title" (.str "t") (.cons "summary" (.str "hi") .nil)) =
      some { title := "t", company := "", location := "",
             posting_date := .str "", employment_type := .str "",
             salary := .str "Not specified", description := "hi...",
             url := .str "", is_remote := .bool false } ∧
    ("hi..." : String).length ≤ 303 :=
  ⟨rfl,
    (formatJob_description
      (.cons "title" (.str "t") (.cons "summary" (.str "hi") .nil))
      { title := "t", company := "", location := "",
        posting_date := .str "", employment_type := .str "",
        salary := .str "Not specified", description := "hi...",
        url := .str "", is_remote := .bool false } rfl).2.2⟩

theorem filterMap_eq_of_map_eq_map_some :
    (items : List JObj) → (recs : List JobRecord) →
    items.map formatJob = recs.map some →
    items.filterMap formatJob = recs
  | [], [], _ => rfl
  | [], _ :: _, h => by simp at h
  | _ :: _, [], h => by simp at h
  | i :: is, r :: rs, h => by
    simp only [List.map_cons, List.cons.injEq] at h
    obtain ⟨h1, h2⟩ := h
    simp [List.filterMap_cons, h1, filterMap_eq_of_map_eq_map_some is rs h2]

/-- C5: when every upstream item formats successfully,
`format_job_results` returns exactly the first `min(n, 5)` formatted
records, in the upstream order, with no re-ranking. -/
theorem format_job_results_first_five (items : List JObj) (recs : List JobRecord)
    (h : items.map formatJob = recs.map some) :
    format_job_results items = recs.take 5 ∧
    (format_job_results items).length = min items.length 5 := by
  have hf : items.filterMap formatJob = recs :=
    filterMap_eq_of_map_eq_map_some items recs h
  have hlen : items.length = recs.length := by
    have := congrArg List.length h
    simpa using this
  refine ⟨by simp [format_job_results, hf], ?_⟩
  simp [format_job_results, hf, List.length_take, hlen, Nat.min_comm]

/-- An upstream item carrying only a title. -/
def mkJobItem (t : String) : JObj := .cons "title" (.str t) .nil

/-- The record `format_job_results` builds from `mkJobItem t`. -/
def mkJobRec (t : String) : JobRecord :=
  { title := t, company := "", location := "",
    posting_date := .str "", employment_type := .str "",
    salary := .str "Not specified", description := "",
    url := .str "", is_remote := .bool false }

/-- Seven upstream items, in order. -/
def sevenItems : List JObj :=
  ["t1", "t2", "t3", "t4", "t5", "t6", "t7"].map mkJobItem

/-- Their formatted records, in the same order. -/
def sevenRecs : List JobRecord :=
  ["t1", "t2", "t3", "t4", "t5", "t6", "t7"].map mkJobRec

theorem format_job_results_first_five_witness :
    format_job_results sevenItems = sevenRecs.take 5 ∧
    (format_job_results sevenItems).length = min sevenItems.length 5 :=
  format_job_results_first_five sevenItems sevenRecs rfl

theorem processResult_cleaned (s : String) (ms : JObj) (a : JArr)
    (hext : jsonExtract s = some (.obj ms))
    (hne : ms.isEmpty = false)
    (hjobs : (ms.get "jobs").getD (.arr .nil) = .arr a) :
    processResult (mkAgentResult s) =
      .obj (.cons "summary" ((ms.get "summary").getD (.str "No summary provided"))
        (.cons "jobs" (.arr (JArr.take 5 a))
        (.cons "recommendations" ((ms.get "recommendations").getD (.arr .nil)) .nil))) := by
  have htr : truthy (.obj ms) = true := by
    cases ms with
    | nil => simp [JObj.isEmpty] at hne
    | cons k v t => rfl
  have hcore : extractFromOutput (.str s) = some (.obj ms) := by
    simpa [extractFromOutput] using hext
  simp only [processResult, processCore, hasOutput, mkAgentResult, JObj.get,
    beq_self_eq_true, if_true, hcore, htr, buildCleaned, hjobs]

/-- C1 (amended): for every terminal text whose extracted JSON value
(direct parse or fenced-block extraction) is a non-empty object whose
`jobs` entry — when present — is an array, the normalizer pushes the
structured result with `summary` defaulting to `"No summary provided"`,
`jobs` defaulting to `[]` and hard-truncated to the first 5 elements, and
`recommendations` defaulting to `[]`; the pushed `jobs` length is
`min(original length, 5)`.  (The non-emptiness is forced by the `if
json_data:` truthiness test, see `empty_object_counterexample`.) -/
theorem normalizer_jobs_truncation (s : String) (ms : JObj) (a : JArr)
    (hext : jsonExtract s = some (.obj ms))
    (hne : ms.isEmpty = false)
    (hjobs : (ms.get "jobs").getD (.arr .nil) = .arr a) :
    processResult (mkAgentResult s) =
      .obj (.cons "summary" ((ms.get "summary").getD (.str "No summary provided"))
        (.cons "jobs" (.arr (JArr.take 5 a))
        (.cons "recommendations" ((ms.get "recommendations").getD (.arr .nil)) .nil))) ∧
    (JArr.take 5 a).length = min a.length 5 :=
  ⟨processResult_cleaned s ms a hext hne hjobs,
    by rw [JArr.length_take]; exact Nat.min_comm 5 a.length⟩

/-- The six-element jobs array of the C1 witness. -/
def sixJobs : JArr :=
  JArr.ofList [.num 1, .num 2, .num 3, .num 4, .num 5, .num 6]

theorem normalizer_jobs_truncation_witness :
    processResult (mkAgentResult "\x7b\"jobs\": [1, 2, 3, 4, 5, 6]\x7d") =
      .obj (.cons "summary" (.str "No summary provided")
        (.cons "jobs" (.arr (JArr.take 5 sixJobs))
        (.cons "recommendations" (.arr .nil) .nil))) ∧
    (JArr.take 5 sixJobs).length = min sixJobs.length 5 :=
  normalizer_jobs_truncation "\x7b\"jobs\": [1, 2, 3, 4, 5, 6]\x7d"
    (.cons "jobs" (.arr sixJobs) .nil) sixJobs rfl rfl rfl

/-- C1 counterexample: the text `"\x7b\x7d"` is valid JSON (it parses to the
empty object), yet the normalizer does not produce a structured result —
the parsed value is falsy, so the `Could not parse JSON output` payload is
pushed instead. -/
theorem empty_object_counterexample :
    jsonLoads "{}" = some (.obj .nil) ∧
    processResult (mkAgentResult "{}") =
      errPayload "Could not parse JSON output" (.str "{}") :=
  ⟨rfl, rfl⟩

/-- C2 (amended): when the whole text fails to parse, the regex finds a
fenced block — whose captured content must start with `\x7b` followed by
optional whitespace and a double quote, and end with `\x7d` — and the
stripped capture parses to a non-empty object whose `jobs` entry (when
present) is an array, the normalizer builds the structured result from
that submatch. -/
theorem fenced_extraction (s : String) (g : List Char) (ms : JObj) (a : JArr)
    (hdirect : jsonLoads s = none)
    (hsearch : searchFenced s.data = some g)
    (hparse : jsonLoads (pyStrip ⟨g⟩) = some (.obj ms))
    (hne : ms.isEmpty = false)
    (hjobs : (ms.get "jobs").getD (.arr .nil) = .arr a) :
    processResult (mkAgentResult s) =
      .obj (.cons "summary" ((ms.get "summary").getD (.str "No summary provided"))
        (.cons "jobs" (.arr (JArr.take 5 a))
        (.cons "recommendations" ((ms.get "recommendations").getD (.arr .nil)) .nil))) := by
  have hext : jsonExtract s = some (.obj ms) := by
    simp only [jsonExtract, hdirect, hsearch]
    exact hparse
  exact processResult_cleaned s ms a hext hne hjobs

/-- The fenced terminal text of the spec's example. -/
def exampleFenced : String :=
  "```json\n\x7b\"summary\":\"ok\",\"jobs\":[],\"recommendations\":[\"apply\"]\x7d\n```"

/-- The object parsed from the fenced example. -/
def exampleFencedObj : JObj :=
  .cons "summary" (.str "ok")
    (.cons "jobs" (.arr .nil)
      (.cons "recommendations" (.arr (.cons (.str "apply") .nil)) .nil))

theorem fenced_extraction_witness :
    processResult (mkAgentResult exampleFenced) =
      .obj (.cons "summary" (.str "ok")
        (.cons "jobs" (.arr .nil)
        (.cons "recommendations" (.arr (.cons (.str "apply") .nil)) .nil))) :=
  fenced_extraction exampleFenced
    "\x7b\"summary\":\"ok\",\"jobs\":[],\"recommendations\":[\"apply\"]\x7d".data
    exampleFencedObj .nil rfl rfl rfl rfl rfl

/-- C2 counterexample: in ` ```\x7b\x7d``` ` the fenced content `\x7b\x7d` starts
with `\x7b`, ends with `\x7d` and is valid JSON, but the regex requires a
double quote after the opening brace, so no submatch is found and the
error payload is pushed instead of a structured result. -/
theorem fenced_empty_object_counterexample :
    jsonLoads "```{}```" = none ∧
    jsonLoads "{}" = some (.obj .nil) ∧
    searchFenced "```{}```".data = none ∧
    processResult (mkAgentResult "```{}```") =
      errPayload "Could not parse JSON output" (.str "```{}```") :=
  ⟨rfl, rfl, rfl, rfl⟩

theorem buildCleaned_ok_shape (j : JVal) (r : JVal) (h : buildCleaned j = .ok r) :
    ∃ sv jv rv, r =
      .obj (.cons "summary" sv (.cons "jobs" jv (.cons "recommendations" rv .nil))) := by
  cases j with
  | obj ms =>
    simp only [buildCleaned] at h
    rcases hj : (ms.get "jobs").getD (.arr .nil) with _ | b | n | s0 | a | o <;>
      simp only [hj] at h
    · cases h
    · cases h
    · cases h
    · exact ⟨_, _, _, (Except.ok.inj h).symm⟩
    · exact ⟨_, _, _, (Except.ok.inj h).symm⟩
    · cases h
  | null => simp [buildCleaned] at h
  | bool b => simp [buildCleaned] at h
  | num n => simp [buildCleaned] at h
  | str s0 => simp [buildCleaned] at h
  | arr a => simp [buildCleaned] at h

/-- C3 (amended): for every agent result the normalizer pushes exactly one
record, of one of the four documented shapes; `Unexpected output format`
exactly when the result is not a mapping with an `output` key;
`Could not parse JSON output` (with `raw_output` the original output) when
the output is not a string, when both parse attempts fail, or — beyond the
claim as stated — when the parsed value is falsy (see
`parse_success_falsy_counterexample`); `Failed to process results` when
the cleaning step raises; and the cleaned structured result when it does
not. -/
theorem process_result_cases (result : JVal) :
    ((∃ sv jv rv, processResult result =
        .obj (.cons "summary" sv (.cons "jobs" jv (.cons "recommendations" rv .nil)))) ∨
      (∃ raw, processResult result = errPayload "Could not parse JSON output" raw) ∨
      processResult result = errPayload "Unexpected output format" (.str (pyStr result)) ∨
      (∃ m, processResult result =
        errPayload ("Failed to process results: " ++ m) (.str (pyStr result)))) ∧
    (hasOutput result = none →
      processResult result = errPayload "Unexpected output format" (.str (pyStr result))) ∧
    (∀ out, hasOutput result = some out → extractFromOutput out = none →
      processResult result = errPayload "Could not parse JSON output" out) ∧
    (∀ out j, hasOutput result = some out → extractFromOutput out = some j →
      truthy j = false →
      processResult result = errPayload "Could not parse JSON output" out) ∧
    (∀ out j m, hasOutput result = some out → extractFromOutput out = some j →
      truthy j = true → buildCleaned j = .error m →
      processResult result =
        errPayload ("Failed to process results: " ++ m) (.str (pyStr result))) ∧
    (∀ out j r, hasOutput result = some out → extractFromOutput out = some j →
      truthy j = true → buildCleaned j = .ok r →
      processResult result = r) := by
  refine ⟨?_, ?_, ?_, ?_, ?_, ?_⟩
  · rcases ho : hasOutput result with _ | out
    · right; right; left; simp [processResult, processCore, ho]
    · rcases he : extractFromOutput out with _ | j
      · right; left; exact ⟨out, by simp [processResult, processCore, ho, he]⟩
      · rcases htr : truthy j with _ | _
        · right; left; exact ⟨out, by simp [processResult, processCore, ho, he, htr]⟩
        · rcases hb : buildCleaned j with m | r
          · right; right; right
            exact ⟨m, by simp [processResult, processCore, ho, he, htr, hb]⟩
          · left
            obtain ⟨sv, jv, rv, hr⟩ := buildCleaned_ok_shape j r hb
            exact ⟨sv, jv, rv, by
              simp [processResult, processCore, ho, he, htr, hb, hr]⟩
  · intro ho; simp [processResult, processCore, ho]
  · intro out ho he; simp [processResult, processCore, ho, he]
  · intro out j ho he htr; simp [processResult, processCore, ho, he, htr]
  · intro out j m ho he htr hb; simp [processResult, processCore, ho, he, htr, hb]
  · intro out j r ho he htr hb; simp [processResult, processCore, ho, he, htr, hb]

theorem process_result_cases_witness :
    hasOutput (mkAgentResult "no json here") = some (.str "no json here") ∧
    extractFromOutput (.str "no json here") = none ∧
    processResult (mkAgentResult "no json here") =
      errPayload "Could not parse JSON output" (.str "no json here") :=
  ⟨rfl, rfl,
    (process_result_cases (mkAgentResult "no json here")).2.2.1 _ rfl rfl⟩

/-- C3 counterexample: for the result `\x7b"output": "null"\x7d` the JSON
parse succeeds (`"null"` is valid JSON) and nothing raises, yet the pushed
record is the `Could not parse JSON output` payload, not a structured
result: the parsed value is falsy. -/
theorem parse_success_falsy_counterexample :
    jsonLoads "null" = some .null ∧
    hasOutput (mkAgentResult "null") = some (.str "null") ∧
    processResult (mkAgentResult "null") =
      errPayload "Could not parse JSON output" (.str "null") :=
  ⟨rfl, rfl, rfl⟩

theorem runLoopAux_spec (model : List Turn → ModelResp) (tools : List ToolSpec)
    (f : Nat) :
    ∀ tr : List Turn,
    (runLoopAux model tools f tr).1.length ≤ tr.length + f ∧
    ((∃ th txt, model (runLoopAux model tools f tr).1 = .finalAnswer th txt ∧
        (runLoopAux model tools f tr).2 = txt) ∨
      (runLoopAux model tools f tr).2 = iterationLimitMarker) := by
  induction f with
  | zero =>
    intro tr
    exact ⟨by simp [runLoopAux], Or.inr rfl⟩
  | succ f ih =>
    intro tr
    cases hm : model tr with
    | finalAnswer th txt =>
      refine ⟨by simp [runLoopAux, hm], Or.inl ⟨th, txt, ?_, ?_⟩⟩
      · simp [runLoopAux, hm]
      · simp [runLoopAux, hm]
    | action th a inp =>
      have h := ih (tr ++ [execTurn tools th a inp])
      refine ⟨?_, ?_⟩
      · have h1 := h.1
        simp only [runLoopAux, hm]
        simp only [List.length_append, List.length_cons, List.length_nil] at h1
        omega
      · have h2 := h.2
        simpa [runLoopAux, hm] using h2
    | malformed raw =>
      have h := ih (tr ++ [parseErrorTurn raw])
      refine ⟨?_, ?_⟩
      · have h1 := h.1
        simp only [runLoopAux, hm]
        simp only [List.length_append, List.length_cons, List.length_nil] at h1
        omega
      · have h2 := h.2
        simpa [runLoopAux, hm] using h2

/-- C4 (spec-modelled: the reasoning loop itself lives in LangChain's
`AgentExecutor`; the repository only sets `max_iterations=5`,
src/main.py line 69): for every model behaviour and tool set, the loop
appends at most 5 turns — so it never executes more than 5 action steps —
and it returns either a text the model produced as a final answer or the
iteration-limit marker. -/
theorem agent_loop_bounded (model : List Turn → ModelResp) (tools : List ToolSpec) :
    (runAgent model tools).1.length ≤ 5 ∧
    ((∃ th txt, model (runAgent model tools).1 = .finalAnswer th txt ∧
        (runAgent model tools).2 = txt) ∨
      (runAgent model tools).2 = iterationLimitMarker) := by
  have h := runLoopAux_spec model tools maxIterations []
  simpa [runAgent, maxIterations] using h

theorem digitChar_isDigit : ∀ d : Nat, (digitChar d).isDigit = true
  | 0 => rfl
  | 1 => rfl
  | 2 => rfl
  | 3 => rfl
  | 4 => rfl
  | 5 => rfl
  | 6 => rfl
  | 7 => rfl
  | 8 => rfl
  | _ + 9 => rfl

theorem digitChar_toNat (d : Nat) (h : d < 10) : (digitChar d).toNat = 48 + d := by
  interval_cases d <;> rfl

theorem digitChar_ne_zero (d : Nat) (h1 : 1 ≤ d) (h2 : d < 10) : digitChar d ≠ '0' := by
  interval_cases d <;> decide

theorem beq_false_of_isDigit_of_not (c d : Char) (h : c.isDigit = true)
    (hd : d.isDigit = false) : (c == d) = false := by
  cases he : c == d
  · rfl
  · have hcd : c = d := by simpa using he
    subst hcd
    rw [h] at hd
    cases hd

theorem isJsonWs_false_of_isDigit (c : Char) (h : c.isDigit = true) :
    isJsonWs c = false := by
  simp only [isJsonWs, List.contains_cons, List.contains_nil]
  rw [beq_false_of_isDigit_of_not c ' ' h (by decide),
    beq_false_of_isDigit_of_not c '\t' h (by decide),
    beq_false_of_isDigit_of_not c '\n' h (by decide),
    beq_false_of_isDigit_of_not c '\r' h (by decide)]
  rfl

theorem natToDigits_ne_nil (n : Nat) : natToDigits n ≠ [] := by
  rw [natToDigits]
  split
  · simp
  · simp

theorem natToDigits_all_digit (n : Nat) : ∀ c ∈ natToDigits n, c.isDigit = true := by
  induction n using Nat.strong_induction_on with
  | _ n ih =>
    rw [natToDigits]
    split
    · intro c hc
      simp only [List.mem_singleton] at hc
      subst hc
      exact digitChar_isDigit n
    · intro c hc
      rcases List.mem_append.mp hc with h1 | h2
      · exact ih (n / 10) (Nat.div_lt_self (by omega) (by omega)) c h1
      · simp only [List.mem_singleton] at h2
        subst h2
        exact digitChar_isDigit (n % 10)

theorem natToDigits_head_ne_zero (n : Nat) (h : 1 ≤ n) :
    (natToDigits n).head? ≠ some '0' := by
  induction n using Nat.strong_induction_on with
  | _ n ih =>
    rw [natToDigits]
    split
    · simp only [List.head?_cons, ne_eq, Option.some.injEq]
      exact digitChar_ne_zero n h (by omega)
    · rw [List.head?_append_of_ne_nil _ (natToDigits_ne_nil (n / 10))]
      exact ih (n / 10) (Nat.div_lt_self (by omega) (by omega)) (by omega)

theorem foldl_natToDigits (n : Nat) : ∀ acc : Nat,
    (natToDigits n).foldl (fun a c => a * 10 + (c.toNat - 48)) acc =
      acc * 10 ^ (natToDigits n).length + n := by
  induction n using Nat.strong_induction_on with
  | _ n ih =>
    intro acc
    rw [natToDigits]
    split
    · simp only [List.foldl_cons, List.foldl_nil, List.length_singleton, pow_one]
      rw [digitChar_toNat n (by omega)]
      omega
    · rw [List.foldl_append, List.length_append,
        ih (n / 10) (Nat.div_lt_self (by omega) (by omega)) acc]
      simp only [List.foldl_cons, List.foldl_nil, List.length_singleton]
      rw [digitChar_toNat (n % 10) (by omega), pow_add, pow_one]
      have hmod := Nat.div_add_mod n 10
      set k := (natToDigits (n / 10)).length
      have : (acc * 10 ^ k + n / 10) * 10 + (48 + n % 10 - 48) =
          acc * (10 ^ k * 10) + (n / 10 * 10 + n % 10) := by ring_nf; omega
      omega

/-- Does the input avoid starting with a decimal digit?  (Safety condition
for parsing a dumped numeral followed by further text.) -/
def noDigitHead : List Char → Bool
  | [] => true
  | c :: _ => !c.isDigit

theorem takeWhile_append_eq (p : Char → Bool) :
    ∀ (l1 l2 : List Char), (∀ c ∈ l1, p c = true) →
    (∀ c, l2.head? = some c → p c = false) →
    (l1 ++ l2).takeWhile p = l1 ∧ (l1 ++ l2).dropWhile p = l2
  | [], l2, _, h2 => by
    cases l2 with
    | nil => exact ⟨rfl, rfl⟩
    | cons c t =>
      have hc := h2 c rfl
      exact ⟨by simp [List.takeWhile_cons, hc], by simp [List.dropWhile_cons, hc]⟩
  | c :: l1, l2, h1, h2 => by
    have hc := h1 c (List.mem_cons_self c l1)
    have ih := takeWhile_append_eq p l1 l2 (fun d hd => h1 d (List.mem_cons_of_mem c hd)) h2
    exact ⟨by simp [List.takeWhile_cons, hc, ih.1], by simp [List.dropWhile_cons, hc, ih.2]⟩

theorem parseNatNum_dump (m : Nat) (rest : List Char) (hrest : noDigitHead rest = true) :
    parseNatNum (natToDigits m ++ rest) = some (m, rest) := by
  have hall := natToDigits_all_digit m
  have hhead : ∀ c, rest.head? = some c → c.isDigit = false := by
    intro c hc
    cases rest with
    | nil => cases hc
    | cons d t =>
      cases hc
      simpa [noDigitHead] using hrest
  obtain ⟨ht, hd⟩ := takeWhile_append_eq Char.isDigit (natToDigits m) rest hall hhead
  have hne : (natToDigits m).isEmpty = false := by
    rw [List.isEmpty_eq_false]
    exact natToDigits_ne_nil m
  have hguard : (decide (1 < (natToDigits m).length) &&
      ((natToDigits m).head? == some '0')) = false := by
    by_cases hm10 : m < 10
    · have hlen : (natToDigits m).length = 1 := by
        rw [natToDigits]; simp [hm10]
      simp [hlen]
    · have hz := natToDigits_head_ne_zero m (by omega)
      simp [hz]
  simp only [parseNatNum, ht, hd, hne, Bool.false_eq_true, if_false, hguard]
  rw [foldl_natToDigits m 0]
  simp

theorem parseNumFrom_default (c : Char) (t : List Char) (h : (c == '-') = false) :
    parseNumFrom (c :: t) = (parseNatNum (c :: t)).map (fun p => (.num (p.1 : Int), p.2)) := by
  unfold parseNumFrom
  split
  · rename_i heq
    rw [List.cons.injEq] at heq
    rw [heq.1] at h
    simp at h
  · rfl

theorem parseNumFrom_dumpInt (n : Int) (rest : List Char) (hrest : noDigitHead rest = true) :
    parseNumFrom (dumpInt n ++ rest) = some (.num n, rest) := by
  unfold dumpInt
  by_cases hn : n < 0
  · simp only [if_pos hn, List.cons_append]
    show (parseNatNum (natToDigits n.natAbs ++ rest)).map
        (fun p => (JVal.num (-(p.1 : Int)), p.2)) = some (JVal.num n, rest)
    rw [parseNatNum_dump n.natAbs rest hrest]
    have hna : -((n.natAbs : Int)) = n := by omega
    show some (JVal.num (-(n.natAbs : Int)), rest) = some (JVal.num n, rest)
    rw [hna]
  · simp only [if_neg hn]
    obtain ⟨c, t, hct⟩ : ∃ c t, natToDigits n.toNat = c :: t := by
      cases he : natToDigits n.toNat with
      | nil => exact absurd he (natToDigits_ne_nil _)
      | cons c t => exact ⟨c, t, rfl⟩
    have hcdig : c.isDigit = true := by
      have := natToDigits_all_digit n.toNat c
      rw [hct] at this
      exact this (List.mem_cons_self c t)
    rw [hct, List.cons_append,
      parseNumFrom_default c (t ++ rest)
        (beq_false_of_isDigit_of_not c '-' hcdig (by decide)),
      ← List.cons_append, ← hct, parseNatNum_dump n.toNat rest hrest]
    have htn : ((n.toNat : Int)) = n := Int.toNat_of_nonneg (by omega)
    show some (JVal.num ((n.toNat : Int)), rest) = some (JVal.num n, rest)
    rw [htn]

theorem hexVal_hexDigitChar (d : Nat) (h : d < 16) : hexVal (hexDigitChar d) = some d := by
  interval_cases d <;> decide

theorem decodeHex4_digits (d1 d2 : Nat) (h1 : d1 < 16) (h2 : d2 < 16) (X : List Char) :
    decodeHex4 ('0' :: '0' :: hexDigitChar d1 :: hexDigitChar d2 :: X) =
      some (d1 * 16 + d2, X) := by
  simp only [decodeHex4, hexVal_hexDigitChar d1 h1, hexVal_hexDigitChar d2 h2,
    (by decide : hexVal '0' = some 0)]
  norm_num

theorem parseStrAux_esc_step (f : Nat) (acc : List Char) (e : Char)
    (rest2 rest3 : List Char) (ch : Char)
    (h : escDecode e rest2 = some (ch, rest3)) :
    parseStrAux (f + 1) acc ('\\' :: e :: rest2) = parseStrAux f (ch :: acc) rest3 := by
  show (match escDecode e rest2 with
        | some (ch, rest3) => parseStrAux f (ch :: acc) rest3
        | none => none) = parseStrAux f (ch :: acc) rest3
  rw [h]

theorem escDecode_u (d1 d2 : Nat) (h1 : d1 < 16) (h2 : d2 < 16) (X : List Char) :
    escDecode 'u' ('0' :: '0' :: hexDigitChar d1 :: hexDigitChar d2 :: X) =
      some (Char.ofNat (d1 * 16 + d2), X) := by
  show (match decodeHex4 ('0' :: '0' :: hexDigitChar d1 :: hexDigitChar d2 :: X) with
        | some (n, rest3) =>
          if n < 0xd800 then some (Char.ofNat n, rest3)
          else if 0xe000 ≤ n then some (Char.ofNat n, rest3)
          else none
        | none => none) = some (Char.ofNat (d1 * 16 + d2), X)
  rw [decodeHex4_digits d1 d2 h1 h2 X]
  exact if_pos (by omega)

theorem parseStrAux_plain_step (f : Nat) (acc X : List Char) (c : Char)
    (hq : (c == '"') = false) (hb : (c == '\\') = false) (h32 : ¬ c.toNat < 32) :
    parseStrAux (f + 1) acc (c :: X) = parseStrAux f (c :: acc) X := by
  rw [parseStrAux.eq_def]
  simp only [hq, hb, Bool.false_eq_true, if_false]
  rw [if_neg h32]

theorem escChar_length_pos (c : Char) : 1 ≤ (escChar c).length := by
  unfold escChar
  split_ifs <;> simp

theorem escList_length_le : ∀ l : List Char, l.length ≤ (escList l).length
  | [] => Nat.le_refl 0
  | c :: t => by
    have h1 := escChar_length_pos c
    have h2 := escList_length_le t
    simp only [escList, List.length_append, List.length_cons]
    omega

theorem parseStrAux_esc : ∀ (l : List Char) (f : Nat) (acc rest : List Char),
    l.length + 1 ≤ f →
    parseStrAux f acc (escList l ++ ('"' :: rest)) = some (acc.reverse ++ l, rest)
  | [], f, acc, rest, hf => by
    obtain ⟨f', rfl⟩ : ∃ f', f = f' + 1 := ⟨f - 1, by omega⟩
    rw [List.append_nil]
    rfl
  | c :: l, f, acc, rest, hf => by
    obtain ⟨f', rfl⟩ : ∃ f', f = f' + 1 := ⟨f - 1, by omega⟩
    have hf' : l.length + 1 ≤ f' := by
      simp only [List.length_cons] at hf
      omega
    by_cases h1 : c = '"'
    · subst h1
      exact (parseStrAux_esc_step f' acc '"' (escList l ++ ('"' :: rest))
          (escList l ++ ('"' :: rest)) '"' rfl).trans
        (by rw [parseStrAux_esc l f' ('"' :: acc) rest hf']; simp)
    · by_cases h2 : c = '\\'
      · subst h2
        exact (parseStrAux_esc_step f' acc '\\' (escList l ++ ('"' :: rest))
            (escList l ++ ('"' :: rest)) '\\' rfl).trans
          (by rw [parseStrAux_esc l f' ('\\' :: acc) rest hf']; simp)
      · by_cases h3 : c = '\x08'
        · subst h3
          exact (parseStrAux_esc_step f' acc 'b' (escList l ++ ('"' :: rest))
              (escList l ++ ('"' :: rest)) '\x08' rfl).trans
            (by rw [parseStrAux_esc l f' ('\x08' :: acc) rest hf']; simp)
        · by_cases h4 : c = '\x0c'
          · subst h4
            exact (parseStrAux_esc_step f' acc 'f' (escList l ++ ('"' :: rest))
                (escList l ++ ('"' :: rest)) '\x0c' rfl).trans
              (by rw [parseStrAux_esc l f' ('\x0c' :: acc) rest hf']; simp)
          · by_cases h5 : c = '\n'
            · subst h5
              exact (parseStrAux_esc_step f' acc 'n' (escList l ++ ('"' :: rest))
                  (escList l ++ ('"' :: rest)) '\n' rfl).trans
                (by rw [parseStrAux_esc l f' ('\n' :: acc) rest hf']; simp)
            · by_cases h6 : c = '\r'
              · subst h6
                exact (parseStrAux_esc_step f' acc 'r' (escList l ++ ('"' :: rest))
                    (escList l ++ ('"' :: rest)) '\r' rfl).trans
                  (by rw [parseStrAux_esc l f' ('\r' :: acc) rest hf']; simp)
              · by_cases h7 : c = '\t'
                · subst h7
                  exact (parseStrAux_esc_step f' acc 't' (escList l ++ ('"' :: rest))
                      (escList l ++ ('"' :: rest)) '\t' rfl).trans
                    (by rw [parseStrAux_esc l f' ('\t' :: acc) rest hf']; simp)
                · have hb1 : (c == '"') = false := beq_eq_false_iff_ne.mpr h1
                  have hb2 : (c == '\\') = false := beq_eq_false_iff_ne.mpr h2
                  have hb3 : (c == '\x08') = false := beq_eq_false_iff_ne.mpr h3
                  have hb4 : (c == '\x0c') = false := beq_eq_false_iff_ne.mpr h4
                  have hb5 : (c == '\n') = false := beq_eq_false_iff_ne.mpr h5
                  have hb6 : (c == '\r') = false := beq_eq_false_iff_ne.mpr h6
                  have hb7 : (c == '\t') = false := beq_eq_false_iff_ne.mpr h7
                  rw [show escList (c :: l) = escChar c ++ escList l from rfl]
                  by_cases h32 : c.toNat < 32
                  · have hesc : escChar c =
                        ['\\', 'u', '0', '0', hexDigitChar (c.toNat / 16),
                          hexDigitChar (c.toNat % 16)] := by
                      simp only [escChar, hb1, hb2, hb3, hb4, hb5, hb6, hb7,
                        Bool.false_eq_true, if_false]
                      rw [if_pos h32]
                    rw [hesc]
                    refine (parseStrAux_esc_step f' acc 'u'
                        ('0' :: '0' :: hexDigitChar (c.toNat / 16) ::
                          hexDigitChar (c.toNat % 16) :: (escList l ++ ('"' :: rest)))
                        (escList l ++ ('"' :: rest))
                        (Char.ofNat (c.toNat / 16 * 16 + c.toNat % 16))
                        (escDecode_u (c.toNat / 16) (c.toNat % 16) (by omega) (by omega)
                          (escList l ++ ('"' :: rest)))).trans ?_
                    rw [show c.toNat / 16 * 16 + c.toNat % 16 = c.toNat from by omega,
                      Char.ofNat_toNat, parseStrAux_esc l f' (c :: acc) rest hf']
                    simp
                  · have hesc : escChar c = [c] := by
                      simp only [escChar, hb1, hb2, hb3, hb4, hb5, hb6, hb7,
                        Bool.false_eq_true, if_false]
                      rw [if_neg h32]
                    rw [hesc]
                    exact (parseStrAux_plain_step f' acc (escList l ++ ('"' :: rest))
                        c hb1 hb2 h32).trans
                      (by rw [parseStrAux_esc l f' (c :: acc) rest hf']; simp)

/- Fuel bounds for the round-trip proof: the number of recursive-descent
steps needed to parse a dumped value. -/
mutual

def jsize : JVal → Nat
  | .null => 1
  | .bool _ => 1
  | .num _ => 1
  | .str _ => 1
  | .arr a => 1 + asize a
  | .obj m => 1 + msize m

def asize : JArr → Nat
  | .nil => 0
  | .cons v t => 1 + jsize v + asize t

def msize : JObj → Nat
  | .nil => 0
  | .cons _ v t => 1 + jsize v + msize t

end

theorem skipWs_cons_of_neg (c : Char) (cs : List Char) (h : isJsonWs c = false) :
    skipWs (c :: cs) = c :: cs := by
  simp [skipWs, List.dropWhile_cons, h]

theorem skipWs_cons_of_pos (c : Char) (cs : List Char) (h : isJsonWs c = true) :
    skipWs (c :: cs) = skipWs cs := by
  simp [skipWs, List.dropWhile_cons, h]

theorem parseVal_ws (f : Nat) (c : Char) (cs : List Char) (h : isJsonWs c = true) :
    parseVal f (c :: cs) = parseVal f cs := by
  cases f with
  | zero => rfl
  | succ f => rw [parseVal_succ, parseVal_succ, skipWs_cons_of_pos c cs h]

theorem parseMembers_ws (f : Nat) (c : Char) (cs : List Char) (h : isJsonWs c = true) :
    parseMembers f (c :: cs) = parseMembers f cs := by
  cases f with
  | zero => rfl
  | succ f => rw [parseMembers_succ, parseMembers_succ, skipWs_cons_of_pos c cs h]

theorem parseElems_ws (f : Nat) (c : Char) (cs : List Char) (h : isJsonWs c = true) :
    parseElems f (c :: cs) = parseElems f cs := by
  cases f with
  | zero => rfl
  | succ f => rw [parseElems_succ, parseElems_succ, parseVal_ws f c cs h]

theorem parseValBody_digit (f : Nat) (c : Char) (cs : List Char) (h : c.isDigit = true) :
    parseValBody f (c :: cs) = parseNumFrom (c :: cs) := by
  simp only [parseValBody]
  rw [beq_false_of_isDigit_of_not c '{' h (by decide),
    beq_false_of_isDigit_of_not c '[' h (by decide),
    beq_false_of_isDigit_of_not c '"' h (by decide),
    beq_false_of_isDigit_of_not c 't' h (by decide),
    beq_false_of_isDigit_of_not c 'f' h (by decide),
    beq_false_of_isDigit_of_not c 'n' h (by decide)]
  simp

theorem noDigitHead_arrTail (t : JArr) (rest : List Char) :
    noDigitHead (dumpArrTail t ++ (']' :: rest)) = true := by
  cases t <;> rfl

theorem noDigitHead_objTail (t : JObj) (rest : List Char) :
    noDigitHead (dumpObjTail t ++ ('}' :: rest)) = true := by
  cases t <;> rfl

theorem dumpStr_length_ge (s : String) : 2 ≤ (dumpStr s).length := by
  simp [dumpStr, List.length_append]

theorem dumpInt_ne_nil (n : Int) : dumpInt n ≠ [] := by
  unfold dumpInt
  split
  · simp
  · exact natToDigits_ne_nil _

mutual

theorem jsize_le_dump : ∀ v : JVal, jsize v ≤ (dumpVal v).length
  | .null => by simp [jsize, dumpVal]
  | .bool true => by simp [jsize, dumpVal]
  | .bool false => by simp [jsize, dumpVal]
  | .num n => by
    simp only [jsize, dumpVal]
    have := List.length_pos.mpr (dumpInt_ne_nil n)
    omega
  | .str s => by
    simp only [jsize, dumpVal]
    have := dumpStr_length_ge s
    omega
  | .arr .nil => by simp [jsize, asize, dumpVal]
  | .arr (.cons v t) => by
    have h1 := jsize_le_dump v
    have h2 := asize_le_dump t
    simp only [jsize, asize, dumpVal, List.length_cons, List.length_append,
      List.length_singleton]
    omega
  | .obj .nil => by simp [jsize, msize, dumpVal]
  | .obj (.cons k v t) => by
    have h1 := jsize_le_dump v
    have h2 := msize_le_dump t
    have h3 := dumpStr_length_ge k
    simp only [jsize, msize, dumpVal, List.length_cons, List.length_append,
      List.length_singleton]
    omega

theorem asize_le_dump : ∀ a : JArr, asize a ≤ (dumpArrTail a).length
  | .nil => Nat.le_refl 0
  | .cons v t => by
    have h1 := jsize_le_dump v
    have h2 := asize_le_dump t
    simp only [asize, dumpArrTail, List.length_cons, List.length_append]
    omega

theorem msize_le_dump : ∀ m : JObj, msize m ≤ (dumpObjTail m).length
  | .nil => Nat.le_refl 0
  | .cons k v t => by
    have h1 := jsize_le_dump v
    have h2 := msize_le_dump t
    have h3 := dumpStr_length_ge k
    simp only [msize, dumpObjTail, List.length_cons, List.length_append]
    omega

end

theorem dumpVal_head (v : JVal) :
    ∃ c t, dumpVal v = c :: t ∧ isJsonWs c = false ∧ (c == ']') = false := by
  cases v with
  | null => exact ⟨'n', _, rfl, by decide, by decide⟩
  | bool b =>
    cases b with
    | false => exact ⟨'f', _, rfl, by decide, by decide⟩
    | true => exact ⟨'t', _, rfl, by decide, by decide⟩
  | num n =>
    by_cases hn : n < 0
    · refine ⟨'-', natToDigits n.natAbs, ?_, by decide, by decide⟩
      show dumpInt n = _
      rw [dumpInt, if_pos hn]
    · obtain ⟨c, t, hct⟩ : ∃ c t, natToDigits n.toNat = c :: t := by
        cases he : natToDigits n.toNat with
        | nil => exact absurd he (natToDigits_ne_nil _)
        | cons c t => exact ⟨c, t, rfl⟩
      have hcdig : c.isDigit = true := by
        have hall := natToDigits_all_digit n.toNat c
        rw [hct] at hall
        exact hall (List.mem_cons_self c t)
      refine ⟨c, t, ?_, isJsonWs_false_of_isDigit c hcdig,
        beq_false_of_isDigit_of_not c ']' hcdig (by decide)⟩
      show dumpInt n = _
      rw [dumpInt, if_neg hn, hct]
  | str s => exact ⟨'"', _, rfl, by decide, by decide⟩
  | arr a =>
    cases a with
    | nil => exact ⟨'[', _, rfl, by decide, by decide⟩
    | cons v t => exact ⟨'[', _, rfl, by decide, by decide⟩
  | obj m =>
    cases m with
    | nil => exact ⟨'{', _, rfl, by decide, by decide⟩
    | cons k v t => exact ⟨'{', _, rfl, by decide, by decide⟩

/-- The array branch of `parseValCore`'s dispatch, as a standalone
function (definitionally the `[` branch of `parseValBody`). -/
def arrBranch (f : Nat) (cs : List Char) : Option (JVal × List Char) :=
  match cs with
  | ']' :: rest2 => some (.arr .nil, rest2)
  | cs2 => (parseElems f cs2).map (fun p => (.arr p.1, p.2))

theorem arrBranch_cons_ne (f : Nat) (c : Char) (L : List Char) (h : (c == ']') = false) :
    arrBranch f (c :: L) = (parseElems f (c :: L)).map (fun p => (.arr p.1, p.2)) := by
  unfold arrBranch
  split
  · rename_i rest2 heq
    rw [List.cons.injEq] at heq
    rw [heq.1] at h
    simp at h
  · rfl

theorem parseMembersBody_quote (f : Nat) (cs1 : List Char) :
    parseMembersBody f ('"' :: cs1) =
      match parseStrAux (cs1.length + 1) [] cs1 with
      | some (key, cs2) =>
        match skipWs cs2 with
        | ':' :: cs3 =>
          match parseVal f cs3 with
          | some (v, cs4) =>
            match skipWs cs4 with
            | ',' :: cs5 => (parseMembers f cs5).map (fun p => (.cons ⟨key⟩ v p.1, p.2))
            | '}' :: cs5 => some (.cons ⟨key⟩ v .nil, cs5)
            | _ => none
          | none => none
        | _ => none
      | none => none := rfl

theorem parseElemsBody_some (f : Nat) (v : JVal) (cs2 : List Char) :
    parseElemsBody f (some (v, cs2)) =
      match skipWs cs2 with
      | ',' :: cs3 => (parseElems f cs3).map (fun p => (.cons v p.1, p.2))
      | ']' :: cs3 => some (.cons v .nil, cs3)
      | _ => none := rfl

mutual

theorem parse_dumpVal : ∀ (v : JVal) (f : Nat) (rest : List Char),
    jsize v ≤ f → noDigitHead rest = true →
    parseVal f (dumpVal v ++ rest) = some (v, rest)
  | .null, f, rest, hs, _ => by
    simp only [jsize] at hs
    obtain ⟨f', rfl⟩ : ∃ f', f = f' + 1 := ⟨f - 1, by omega⟩
    rfl
  | .bool true, f, rest, hs, _ => by
    simp only [jsize] at hs
    obtain ⟨f', rfl⟩ : ∃ f', f = f' + 1 := ⟨f - 1, by omega⟩
    rfl
  | .bool false, f, rest, hs, _ => by
    simp only [jsize] at hs
    obtain ⟨f', rfl⟩ : ∃ f', f = f' + 1 := ⟨f - 1, by omega⟩
    rfl
  | .num n, f, rest, hs, hd => by
    simp only [jsize] at hs
    obtain ⟨f', rfl⟩ : ∃ f', f = f' + 1 := ⟨f - 1, by omega⟩
    rw [parseVal_succ]
    by_cases hn : n < 0
    · have hdump : dumpVal (.num n) = '-' :: natToDigits n.natAbs := by
        show dumpInt n = _
        rw [dumpInt, if_pos hn]
      rw [hdump, List.cons_append, skipWs_cons_of_neg '-' _ (by decide),
        show parseValBody f' ('-' :: (natToDigits n.natAbs ++ rest)) =
          parseNumFrom ('-' :: (natToDigits n.natAbs ++ rest)) from rfl,
        ← List.cons_append, ← hdump]
      exact parseNumFrom_dumpInt n rest hd
    · obtain ⟨c, t, hct⟩ : ∃ c t, natToDigits n.toNat = c :: t := by
        cases he : natToDigits n.toNat with
        | nil => exact absurd he (natToDigits_ne_nil _)
        | cons c t => exact ⟨c, t, rfl⟩
      have hcdig : c.isDigit = true := by
        have hall := natToDigits_all_digit n.toNat c
        rw [hct] at hall
        exact hall (List.mem_cons_self c t)
      have hdump : dumpVal (.num n) = c :: t := by
        show dumpInt n = _
        rw [dumpInt, if_neg hn, hct]
      rw [hdump, List.cons_append,
        skipWs_cons_of_neg c _ (isJsonWs_false_of_isDigit c hcdig),
        parseValBody_digit f' c _ hcdig, ← List.cons_append, ← hdump]
      exact parseNumFrom_dumpInt n rest hd
  | .str s, f, rest, hs, _ => by
    simp only [jsize] at hs
    obtain ⟨f', rfl⟩ : ∃ f', f = f' + 1 := ⟨f - 1, by omega⟩
    rw [parseVal_succ,
      show dumpVal (.str s) ++ rest = '"' :: (escList s.data ++ ('"' :: rest)) from by
        simp [dumpVal, dumpStr, List.append_assoc],
      skipWs_cons_of_neg '"' _ (by decide),
      show parseValBody f' ('"' :: (escList s.data ++ ('"' :: rest))) =
        (match parseStrAux ((escList s.data ++ ('"' :: rest)).length + 1) []
            (escList s.data ++ ('"' :: rest)) with
         | some (content, rest2) => some (.str ⟨content⟩, rest2)
         | none => none) from rfl,
      parseStrAux_esc s.data ((escList s.data ++ ('"' :: rest)).length + 1) [] rest (by
        have := escList_length_le s.data
        simp only [List.length_append, List.length_cons]
        omega)]
    rfl
  | .arr .nil, f, rest, hs, _ => by
    simp only [jsize, asize] at hs
    obtain ⟨f', rfl⟩ : ∃ f', f = f' + 1 := ⟨f - 1, by omega⟩
    rfl
  | .arr (.cons v t), f, rest, hs, _ => by
    simp only [jsize, asize] at hs
    obtain ⟨f', rfl⟩ : ∃ f', f = f' + 1 := ⟨f - 1, by omega⟩
    rw [parseVal_succ,
      show dumpVal (.arr (.cons v t)) ++ rest =
        '[' :: (dumpVal v ++ (dumpArrTail t ++ (']' :: rest))) from by
          simp [dumpVal, List.append_assoc],
      skipWs_cons_of_neg '[' _ (by decide),
      show parseValBody f' ('[' :: (dumpVal v ++ (dumpArrTail t ++ (']' :: rest)))) =
        arrBranch f' (skipWs (dumpVal v ++ (dumpArrTail t ++ (']' :: rest)))) from rfl]
    obtain ⟨c, tl, hct, hcws, hcrb⟩ := dumpVal_head v
    rw [hct, List.cons_append, skipWs_cons_of_neg c _ hcws,
      arrBranch_cons_ne f' c _ hcrb, ← List.cons_append, ← hct,
      parse_dumpElems v t f' rest (by simp only [asize]; omega)]
    rfl
  | .obj .nil, f, rest, hs, _ => by
    simp only [jsize, msize] at hs
    obtain ⟨f', rfl⟩ : ∃ f', f = f' + 1 := ⟨f - 1, by omega⟩
    rfl
  | .obj (.cons k v t), f, rest, hs, _ => by
    simp only [jsize, msize] at hs
    obtain ⟨f', rfl⟩ : ∃ f', f = f' + 1 := ⟨f - 1, by omega⟩
    rw [parseVal_succ,
      show dumpVal (.obj (.cons k v t)) ++ rest =
        '{' :: (dumpStr k ++ (':' :: ' ' ::
          (dumpVal v ++ (dumpObjTail t ++ ('}' :: rest))))) from by
        simp [dumpVal, List.append_assoc],
      skipWs_cons_of_neg '{' _ (by decide),
      show parseValBody f'
          ('{' :: (dumpStr k ++ (':' :: ' ' ::
            (dumpVal v ++ (dumpObjTail t ++ ('}' :: rest)))))) =
        (parseMembers f'
          (dumpStr k ++ (':' :: ' ' ::
            (dumpVal v ++ (dumpObjTail t ++ ('}' :: rest)))))).map
          (fun p => (.obj p.1, p.2)) from rfl,
      parse_dumpMembers k v t f' rest (by simp only [msize]; omega)]
    rfl
termination_by v _ _ _ _ => sizeOf v
decreasing_by all_goals (simp; omega)

theorem parse_dumpElems : ∀ (v : JVal) (t : JArr) (f : Nat) (rest : List Char),
    asize (JArr.cons v t) ≤ f →
    parseElems f (dumpVal v ++ (dumpArrTail t ++ (']' :: rest))) = some (.cons v t, rest)
  | v, .nil, f, rest, hs => by
    simp only [asize] at hs
    obtain ⟨f', rfl⟩ : ∃ f', f = f' + 1 := ⟨f - 1, by omega⟩
    rw [parseElems_succ,
      parse_dumpVal v f' (dumpArrTail .nil ++ (']' :: rest)) (by omega)
        (noDigitHead_arrTail .nil rest),
      parseElemsBody_some,
      show dumpArrTail JArr.nil ++ (']' :: rest) = ']' :: rest from rfl,
      skipWs_cons_of_neg ']' _ (by decide)]
    rfl
  | v, .cons v2 t2, f, rest, hs => by
    simp only [asize] at hs
    obtain ⟨f', rfl⟩ : ∃ f', f = f' + 1 := ⟨f - 1, by omega⟩
    rw [parseElems_succ,
      parse_dumpVal v f' (dumpArrTail (.cons v2 t2) ++ (']' :: rest)) (by omega)
        (noDigitHead_arrTail (.cons v2 t2) rest),
      parseElemsBody_some,
      show dumpArrTail (JArr.cons v2 t2) ++ (']' :: rest) =
          ',' :: ' ' :: (dumpVal v2 ++ (dumpArrTail t2 ++ (']' :: rest))) from by
        simp [dumpArrTail, List.append_assoc],
      skipWs_cons_of_neg ',' _ (by decide)]
    show (parseElems f' (' ' :: (dumpVal v2 ++ (dumpArrTail t2 ++ (']' :: rest))))).map
        (fun p => (JArr.cons v p.1, p.2)) = some (JArr.cons v (JArr.cons v2 t2), rest)
    rw [parseElems_ws f' ' ' _ (by decide),
      parse_dumpElems v2 t2 f' rest (by simp only [asize]; omega)]
    rfl
termination_by v t _ _ _ => sizeOf v + sizeOf t + 1
decreasing_by all_goals (simp; omega)

theorem parse_dumpMembers : ∀ (k : String) (v : JVal) (t : JObj) (f : Nat) (rest : List Char),
    msize (JObj.cons k v t) ≤ f →
    parseMembers f
        (dumpStr k ++ (':' :: ' ' :: (dumpVal v ++ (dumpObjTail t ++ ('}' :: rest))))) =
      some (.cons k v t, rest)
  | k, v, .nil, f, rest, hs => by
    simp only [msize] at hs
    obtain ⟨f', rfl⟩ : ∃ f', f = f' + 1 := ⟨f - 1, by omega⟩
    rw [parseMembers_succ,
      show dumpStr k ++ (':' :: ' ' :: (dumpVal v ++ (dumpObjTail JObj.nil ++ ('}' :: rest)))) =
        '"' :: (escList k.data ++ ('"' :: (':' :: ' ' ::
          (dumpVal v ++ (dumpObjTail JObj.nil ++ ('}' :: rest)))))) from by
        simp [dumpStr, List.append_assoc],
      skipWs_cons_of_neg '"' _ (by decide), parseMembersBody_quote,
      parseStrAux_esc k.data
        ((escList k.data ++ ('"' :: (':' :: ' ' ::
          (dumpVal v ++ (dumpObjTail JObj.nil ++ ('}' :: rest)))))).length + 1) []
        (':' :: ' ' :: (dumpVal v ++ (dumpObjTail JObj.nil ++ ('}' :: rest)))) (by
        have := escList_length_le k.data
        simp only [List.length_append, List.length_cons]
        omega)]
    show (match parseVal f' (' ' :: (dumpVal v ++ (dumpObjTail JObj.nil ++ ('}' :: rest)))) with
          | some (w, cs4) =>
            match skipWs cs4 with
            | ',' :: cs5 => (parseMembers f' cs5).map (fun p => (JObj.cons k w p.1, p.2))
            | '}' :: cs5 => some (JObj.cons k w .nil, cs5)
            | _ => none
          | none => none) = some (JObj.cons k v .nil, rest)
    rw [parseVal_ws f' ' ' _ (by decide),
      parse_dumpVal v f' (dumpObjTail JObj.nil ++ ('}' :: rest)) (by omega)
        (noDigitHead_objTail JObj.nil rest)]
    show (match skipWs (dumpObjTail JObj.nil ++ ('}' :: rest)) with
          | ',' :: cs5 => (parseMembers f' cs5).map (fun p => (JObj.cons k v p.1, p.2))
          | '}' :: cs5 => some (JObj.cons k v .nil, cs5)
          | _ => none) = some (JObj.cons k v .nil, rest)
    rw [show dumpObjTail JObj.nil ++ ('}' :: rest) = '}' :: rest from rfl,
      skipWs_cons_of_neg '}' _ (by decide)]
    rfl
  | k, v, .cons k2 v2 t2, f, rest, hs => by
    simp only [msize] at hs
    obtain ⟨f', rfl⟩ : ∃ f', f = f' + 1 := ⟨f - 1, by omega⟩
    rw [parseMembers_succ,
      show dumpStr k ++ (':' :: ' ' ::
          (dumpVal v ++ (dumpObjTail (JObj.cons k2 v2 t2) ++ ('}' :: rest)))) =
        '"' :: (escList k.data ++ ('"' :: (':' :: ' ' ::
          (dumpVal v ++ (dumpObjTail (JObj.cons k2 v2 t2) ++ ('}' :: rest)))))) from by
        simp [dumpStr, List.append_assoc],
      skipWs_cons_of_neg '"' _ (by decide), parseMembersBody_quote,
      parseStrAux_esc k.data
        ((escList k.data ++ ('"' :: (':' :: ' ' ::
          (dumpVal v ++ (dumpObjTail (JObj.cons k2 v2 t2) ++ ('}' :: rest)))))).length + 1) []
        (':' :: ' ' :: (dumpVal v ++ (dumpObjTail (JObj.cons k2 v2 t2) ++ ('}' :: rest)))) (by
        have := escList_length_le k.data
        simp only [List.length_append, List.length_cons]
        omega)]
    show (match parseVal f'
            (' ' :: (dumpVal v ++ (dumpObjTail (JObj.cons k2 v2 t2) ++ ('}' :: rest)))) with
          | some (w, cs4) =>
            match skipWs cs4 with
            | ',' :: cs5 => (parseMembers f' cs5).map (fun p => (JObj.cons k w p.1, p.2))
            | '}' :: cs5 => some (JObj.cons k w .nil, cs5)
            | _ => none
          | none => none) = some (JObj.cons k v (JObj.cons k2 v2 t2), rest)
    rw [parseVal_ws f' ' ' _ (by decide),
      parse_dumpVal v f' (dumpObjTail (JObj.cons k2 v2 t2) ++ ('}' :: rest)) (by omega)
        (noDigitHead_objTail (JObj.cons k2 v2 t2) rest)]
    show (match skipWs (dumpObjTail (JObj.cons k2 v2 t2) ++ ('}' :: rest)) with
          | ',' :: cs5 => (parseMembers f' cs5).map (fun p => (JObj.cons k v p.1, p.2))
          | '}' :: cs5 => some (JObj.cons k v .nil, cs5)
          | _ => none) = some (JObj.cons k v (JObj.cons k2 v2 t2), rest)
    rw [show dumpObjTail (JObj.cons k2 v2 t2) ++ ('}' :: rest) =
        ',' :: ' ' :: (dumpStr k2 ++ (':' :: ' ' ::
          (dumpVal v2 ++ (dumpObjTail t2 ++ ('}' :: rest))))) from by
      simp [dumpObjTail, List.append_assoc],
      skipWs_cons_of_neg ',' _ (by decide)]
    show (parseMembers f' (' ' :: (dumpStr k2 ++ (':' :: ' ' ::
          (dumpVal v2 ++ (dumpObjTail t2 ++ ('}' :: rest))))))).map
        (fun p => (JObj.cons k v p.1, p.2)) =
      some (JObj.cons k v (JObj.cons k2 v2 t2), rest)
    rw [parseMembers_ws f' ' ' _ (by decide),
      parse_dumpMembers k2 v2 t2 f' rest (by simp only [msize]; omega)]
    rfl
termination_by _ v t _ _ _ => sizeOf v + sizeOf t + 1
decreasing_by all_goals (simp; omega)

end

/-- Top-level round trip of the serializer and the parser: `json.loads`
recovers any value produced by `json.dumps`. -/
theorem jsonLoads_dumps (v : JVal) : jsonLoads (dumps v) = some v := by
  have h := parse_dumpVal v ((dumpVal v).length + 1) []
    (by have := jsize_le_dump v; omega) rfl
  rw [List.append_nil] at h
  have hdef : jsonLoads (dumps v) =
      match parseVal ((dumpVal v).length + 1) (dumpVal v) with
      | some (w, rest) => if (skipWs rest).isEmpty then some w else none
      | none => none := rfl
  rw [hdef, h]
  rfl

/-- A structured result as in spec section 3: a summary string, a sequence
of job mappings (at most 5 — the bound is a hypothesis of the round-trip
theorem), and a sequence of recommendation strings. -/
structure StructuredResult where
  summary : String
  jobs : List JObj
  recommendations : List String

/-- The JSON object of a structured result, with the key order of the
cleaned-data construction of `main` (src/main.py lines 219-223). -/
def StructuredResult.toJVal (r : StructuredResult) : JVal :=
  .obj (.cons "summary" (.str r.summary)
    (.cons "jobs" (.arr (JArr.ofList (r.jobs.map JVal.obj)))
    (.cons "recommendations" (.arr (JArr.ofList (r.recommendations.map JVal.str))) .nil)))

/-- C8: for every structured result (a mapping with a `summary` string, a
`jobs` sequence of at most 5 mappings and a `recommendations` sequence of
strings), serializing it with `json.dumps` and feeding the text through
the normalizer succeeds on the direct JSON-parse path and pushes a record
field-for-field equal to the original. -/
theorem structured_roundtrip (r : StructuredResult) (h : r.jobs.length ≤ 5) :
    jsonLoads (dumps r.toJVal) = some r.toJVal ∧
    processResult (mkAgentResult (dumps r.toJVal)) = r.toJVal := by
  have hload := jsonLoads_dumps r.toJVal
  refine ⟨hload, ?_⟩
  have hext : jsonExtract (dumps r.toJVal) = some r.toJVal := by
    simp [jsonExtract, hload]
  have htake : JArr.take 5 (JArr.ofList (r.jobs.map JVal.obj)) =
      JArr.ofList (r.jobs.map JVal.obj) :=
    JArr.take_of_length_le 5 _ (by rw [JArr.length_ofList, List.length_map]; exact h)
  have hres := processResult_cleaned (dumps r.toJVal)
    (.cons "summary" (.str r.summary)
      (.cons "jobs" (.arr (JArr.ofList (r.jobs.map JVal.obj)))
      (.cons "recommendations" (.arr (JArr.ofList (r.recommendations.map JVal.str))) .nil)))
    (JArr.ofList (r.jobs.map JVal.obj)) hext rfl rfl
  rw [hres, htake]
  rfl

/-- A concrete structured result exercising the round trip. -/
def exampleSR : StructuredResult :=
  ⟨"ok", [JObj.cons "title" (JVal.str "T") JObj.nil], ["apply"]⟩

/-- Witness for C8 at a concrete structured result with one job. -/
theorem structured_roundtrip_witness :
    exampleSR.jobs.length ≤ 5 ∧
    (jsonLoads (dumps exampleSR.toJVal) = some exampleSR.toJVal ∧
     processResult (mkAgentResult (dumps exampleSR.toJVal)) = exampleSR.toJVal) :=
  ⟨by decide, structured_roundtrip exampleSR (by decide)⟩
